import Mathlib

/-!
# spannerdiff — verification of the schema-differencing core

A shallow embedding of the spannerdiff migration planner
(`definition.go`, `operation.go`, `spannerdiff.go`, `util.go`).

The embedding models:
* identifiers (`identifier.go`): stable keys per schema-object kind;
* a simplified memefish AST carrying exactly the fields the differ reads,
  with an opaque `rest` string standing for the attributes the code only
  ever compares for whole-node equality;
* `equalNode` (`util.go`): structural equality where `Options` records
  compare unordered by key (last record wins per key) and `IndexKey`
  treats an absent direction as `ASC`;
* the definition layer (`definition.go`): per-kind `id`, `add`, `drop`,
  `dependsOn`, `alter` and `onDependencyChange`, grant explosion/merging,
  and `newDefinitions` duplicate detection;
* the migration planner (`spannerdiff.go`): migration states, the
  drops/alters/adds passes, and the cascade (`updateState` notifying
  registered dependents, modelled with explicit fuel because the Go
  recursion has no termination guard);
* the operation orderer (`operation.go`): pre-sort by
  `(identifier.ID(), kind)`, partition into drops vs adds/alters,
  depth-first topological sort per partition, reversal of the drops.

Go map iterations whose order is nondeterministic across runs are made
explicit: the `alters` pass takes a reordering `pi` of the definition
list, and the synonym set-difference loops of `table.alter` take a
reordering `ordSyn` of the synonym name lists.
-/

set_option maxRecDepth 6000

namespace Spannerdiff

/-! ## Scalar and schema types (`util.go` `columnTypeOf`) -/

/-- Scalar type names of `memefish/ast.ScalarTypeName`. -/
inductive ScalarTypeName
  | boolT | int64T | float64T | float32T | stringT | bytesT
  | timestampT | dateT | numericT | jsonT
  deriving DecidableEq, Repr

/-- Column schema types: `ScalarSchemaType`, `SizedSchemaType`,
`ArraySchemaType` and `NamedType` (proto / enum, by textual form). -/
inductive SchemaType
  | scalarT (n : ScalarTypeName)
  | sizedT (n : ScalarTypeName) (size : String)
  | arrayT (item : SchemaType)
  | namedT (path : String)
  deriving DecidableEq, Repr

/-- `columnType` of `util.go`: the shape used to classify permitted
column-type transitions. -/
inductive ColumnType
  | scalar (t : ScalarTypeName)
  | array (item : ColumnType)
  | protoOrEnum
  deriving DecidableEq, Repr

/-- `columnTypeOf` of `util.go`. -/
def columnTypeOf : SchemaType → ColumnType
  | .scalarT n => .scalar n
  | .sizedT n _ => .scalar n
  | .arrayT it => .array (columnTypeOf it)
  | .namedT _ => .protoOrEnum

/-! ## Identifiers (`identifier.go`)

The current identifier file is partially missing from the sources: the
formats for vector index, sequence, model, proto bundle, role, grant,
change-stream read function and database identifiers are modelled from
the spec ("stable, comparable keys"; "Identity encodes kind and name"),
in the same `Kind(name)` style as the identifiers that are present. -/

/-- A 1- or 2-element `ast.Path` (optional schema qualifier plus name). -/
structure TPath where
  schema : Option String
  name : String
  deriving DecidableEq, Repr

/-- `identifier`: one constructor per schema-object kind.  A grant
identifier nests the identifier of its privilege target. -/
inductive Identifier
  | schemaID (name : String)
  | tableID (schema : Option String) (name : String)
  | columnID (schema : Option String) (table : String) (name : String)
  | indexID (schema : Option String) (name : String)
  | searchIndexID (name : String)
  | vectorIndexID (name : String)
  | propertyGraphID (name : String)
  | viewID (schema : Option String) (name : String)
  | changeStreamID (name : String)
  | changeStreamReadFunctionID (name : String)
  | sequenceID (schema : Option String) (name : String)
  | modelID (name : String)
  | protoBundleID
  | roleID (name : String)
  | databaseID (name : String)
  | grantID (role : String) (target : Identifier)
  deriving DecidableEq, Repr

/-- Qualified-name rendering used inside `ID()` strings. -/
def qualName : Option String → String → String
  | none, n => n
  | some s, n => s ++ "." ++ n

/-- `identifier.ID()`: the stable string key used by the pre-sort. -/
def Identifier.ID : Identifier → String
  | .schemaID n => "Schema(" ++ n ++ ")"
  | .tableID s n => "Table(" ++ qualName s n ++ ")"
  | .columnID s t n => "Table(" ++ qualName s t ++ "):Column(" ++ n ++ ")"
  | .indexID s n => "Index(" ++ qualName s n ++ ")"
  | .searchIndexID n => "SearchIndex(" ++ n ++ ")"
  | .vectorIndexID n => "VectorIndex(" ++ n ++ ")"
  | .propertyGraphID n => "PropertyGraph(" ++ n ++ ")"
  | .viewID s n => "View(" ++ qualName s n ++ ")"
  | .changeStreamID n => "ChangeStream(" ++ n ++ ")"
  | .changeStreamReadFunctionID n => "ChangeStreamReadFunction(" ++ n ++ ")"
  | .sequenceID s n => "Sequence(" ++ qualName s n ++ ")"
  | .modelID n => "Model(" ++ n ++ ")"
  | .protoBundleID => "ProtoBundle"
  | .roleID n => "Role(" ++ n ++ ")"
  | .databaseID n => "Database(" ++ n ++ ")"
  | .grantID r t => "Grant(" ++ r ++ ":" ++ t.ID ++ ")"

/-- `newTableIDFromPath`. -/
def newTableIDFromPath (p : TPath) : Identifier := .tableID p.schema p.name

/-- `newTableIDFromIdent`. -/
def newTableIDFromIdent (n : String) : Identifier := .tableID none n

/-- `newColumnID` (table id fields flattened into the constructor). -/
def newColumnID : Identifier → String → Identifier
  | .tableID s t, n => .columnID s t n
  | _, n => .columnID none "" n

/-- `newViewIDFromPath`. -/
def newViewIDFromPath (p : TPath) : Identifier := .viewID p.schema p.name

/-- `newViewIDFromIdent`. -/
def newViewIDFromIdent (n : String) : Identifier := .viewID none n

/-! ## AST model

Each structure mirrors the memefish node of the same name, restricted to
the fields the differ reads; `rest` is an opaque stand-in for any other
attributes, which only ever participate via whole-node equality. -/

/-- One record of an `ast.Options` list. -/
structure OptionsDef where
  name : String
  value : String
  deriving DecidableEq, Repr

/-- `ast.Options` (the `Records` list). -/
abbrev GOptions := List OptionsDef

/-- Sort direction of an index key; `none` models an absent direction. -/
inductive Direction
  | asc | desc
  deriving DecidableEq, Repr

/-- `ast.IndexKey`. -/
structure IndexKey where
  name : String
  dir : Option Direction
  deriving DecidableEq, Repr

/-- `ast.ColumnDefaultSemantics`: a plain default expression, a generated
column, or an identity column (the latter two are not
`*ast.ColumnDefaultExpr` and fail the type assertions in `column.alter`). -/
inductive DefaultSemantics
  | defaultExpr (e : String)
  | generatedColumn (e : String)
  | identityColumn (tag : String)
  deriving DecidableEq, Repr

/-- `ast.ColumnDef`. -/
structure ColumnDef where
  name : String
  type : SchemaType
  notNull : Bool
  defaultSemantics : Option DefaultSemantics
  options : Option GOptions
  rest : String
  deriving DecidableEq, Repr

/-- `ast.TableConstraint`: optional name plus an opaque body. -/
structure TableConstraint where
  name : Option String
  body : String
  deriving DecidableEq, Repr

/-- `ast.CreateRowDeletionPolicy` / `ast.RowDeletionPolicy`, opaque. -/
structure RowDeletionPolicy where
  body : String
  deriving DecidableEq, Repr

/-- `ast.CreateTable`. -/
structure CreateTable where
  name : TPath
  columns : List ColumnDef
  primaryKeys : List IndexKey
  synonyms : List String
  tableConstraints : List TableConstraint
  rowDeletionPolicy : Option RowDeletionPolicy
  rest : String
  deriving DecidableEq, Repr

/-- `ast.CreateSchema`. -/
structure CreateSchema where
  name : String
  deriving DecidableEq, Repr

/-- `ast.Storing`. -/
structure Storing where
  columns : List String
  deriving DecidableEq, Repr

/-- `ast.CreateIndex`. -/
structure CreateIndex where
  name : TPath
  tableName : TPath
  keys : List IndexKey
  storing : Option Storing
  rest : String
  deriving DecidableEq, Repr

/-- `ast.CreateSearchIndex` (name and table name are single idents). -/
structure CreateSearchIndex where
  name : String
  tableName : String
  tokenListPart : List String
  storing : Option Storing
  rest : String
  deriving DecidableEq, Repr

/-- `ast.CreateVectorIndex`. -/
structure CreateVectorIndex where
  name : String
  tableName : String
  columnName : String
  options : Option GOptions
  rest : String
  deriving DecidableEq, Repr

/-- Key column list of a property-graph element key clause. -/
structure PGElementKey where
  columns : List String
  deriving DecidableEq, Repr

/-- `ast.PropertyGraphSourceKeys`-side data read by `dependsOn`:
key columns, the referenced element name, and the reference columns. -/
structure PGSourceKeys where
  keys : List String
  elementReference : String
  referenceColumns : List String
  deriving DecidableEq, Repr

/-- `ast.PropertyGraphNodeElementKey` or `ast.PropertyGraphEdgeElementKeys`
(the code reads `Element` and `Source`; anything else is opaque). -/
inductive PGElementKeys
  | nodeKey (key : PGElementKey)
  | edgeKeys (element : Option PGElementKey) (source : PGSourceKeys) (rest : String)
  deriving DecidableEq, Repr

/-- One element of a property graph's node/edge table list. -/
structure PGElement where
  name : String
  keys : Option PGElementKeys
  rest : String
  deriving DecidableEq, Repr

/-- `ast.PropertyGraphContent`. -/
structure PGContent where
  nodeTables : List PGElement
  edgeTables : Option (List PGElement)
  rest : String
  deriving DecidableEq, Repr

/-- `ast.CreatePropertyGraph`. -/
structure CreatePropertyGraph where
  orReplace : Bool
  name : String
  content : PGContent
  rest : String
  deriving DecidableEq, Repr

/-- A view query, abstracted to the result of the
`tablesOrViewsInQueryExpr` traversal of `util.go`: the `PathTableExpr`
paths and `TableName` idents occurring in it, plus opaque remainder. -/
structure QueryExpr where
  pathRefs : List TPath
  identRefs : List String
  rest : String
  deriving DecidableEq, Repr

/-- `ast.CreateView`. -/
structure CreateView where
  name : TPath
  orReplace : Bool
  query : QueryExpr
  rest : String
  deriving DecidableEq, Repr

/-- One `FOR` entry of a change stream: a table and optional columns. -/
structure CSForTable where
  tableName : String
  columns : List String
  deriving DecidableEq, Repr

/-- `ast.ChangeStreamFor`: `FOR ALL` or a table list. -/
inductive ChangeStreamFor
  | forAll
  | forTables (tables : List CSForTable)
  deriving DecidableEq, Repr

/-- `ast.CreateChangeStream`. -/
structure CreateChangeStream where
  name : String
  forClause : Option ChangeStreamFor
  options : Option GOptions
  rest : String
  deriving DecidableEq, Repr

/-- `ast.CreateSequence`. -/
structure CreateSequence where
  name : TPath
  options : Option GOptions
  rest : String
  deriving DecidableEq, Repr

/-- `ast.CreateModel`. -/
structure CreateModel where
  name : String
  orReplace : Bool
  inputOutput : String
  options : Option GOptions
  rest : String
  deriving DecidableEq, Repr

/-- `ast.CreateProtoBundle` (types by textual form, as the code keys
them by `t.SQL()`). -/
structure CreateProtoBundle where
  types : List String
  deriving DecidableEq, Repr

/-- `ast.CreateRole`. -/
structure CreateRole where
  name : String
  deriving DecidableEq, Repr

/-- `ast.TablePrivilege`. -/
inductive TablePrivilege
  | select (columns : List String)
  | update (columns : List String)
  | insert (columns : List String)
  | delete
  deriving DecidableEq, Repr

/-- `ast.Privilege` variants handled by `newGrant`. -/
inductive Privilege
  | privilegeOnTable (privileges : List TablePrivilege) (names : List String)
  | selectPrivilegeOnView (names : List String)
  | selectPrivilegeOnChangeStream (names : List String)
  | executePrivilegeOnTableFunction (names : List String)
  | rolePrivilege (names : List String)
  deriving DecidableEq, Repr

/-- `ast.Grant`. -/
structure GrantNode where
  roles : List String
  privilege : Privilege
  deriving DecidableEq, Repr

/-- `ast.AlterDatabase`. -/
structure AlterDatabaseNode where
  name : String
  options : Option GOptions
  deriving DecidableEq, Repr

/-! ## AST equality (`equalNode` of `util.go`, current revision)

`cmp.Equal` with two custom comparers: `*ast.Options` compare as maps
from record name to value (a later record with the same name wins), and
`*ast.IndexKey` compare after defaulting an absent direction to `ASC`.
We realize both comparers by normalizing nodes to canonical forms and
comparing structurally; source positions do not exist in the model. -/

/-- Lexicographic comparison of char lists by code point (the byte-wise
string comparison of Go's `cmp.Compare` on the ASCII identifier keys). -/
def charListLt : List Char → List Char → Bool
  | [], [] => false
  | [], _ :: _ => true
  | _ :: _, [] => false
  | a :: as, b :: bs =>
      if a.toNat < b.toNat then true
      else if b.toNat < a.toNat then false
      else charListLt as bs

/-- String comparison used by the pre-sort. -/
def strLtB (a b : String) : Bool := charListLt a.data b.data

/-- Keep the last record for each option name (Go map insertion). -/
def optionsLastWins : GOptions → GOptions
  | [] => []
  | o :: rest =>
      if (optionsLastWins rest).any (fun p => p.name = o.name) then
        optionsLastWins rest
      else
        o :: optionsLastWins rest

/-- Sort key order on option records: by name, byte-wise. -/
def optionsLE (a b : OptionsDef) : Prop := charListLt b.name.data a.name.data = false

instance : DecidableRel optionsLE := fun a b => by
  unfold optionsLE
  infer_instance

/-- Canonical form of an options list: last-wins per name, sorted by name. -/
def normOptions (l : GOptions) : GOptions :=
  (optionsLastWins l).insertionSort optionsLE

/-- Canonical form of an optional options list (`nil` stays distinct from
an empty list, as in the Go comparer). -/
def normOptionsOpt : Option GOptions → Option GOptions
  | none => none
  | some l => some (normOptions l)

/-- Canonical form of an index key: absent direction becomes `ASC`. -/
def normIndexKey (k : IndexKey) : IndexKey :=
  { k with dir := some (k.dir.getD .asc) }

/-- Canonical form of an index key list. -/
def normIndexKeys (l : List IndexKey) : List IndexKey :=
  l.map normIndexKey

/-- Canonical column definition (options normalized). -/
def normColumnDef (c : ColumnDef) : ColumnDef :=
  { c with options := normOptionsOpt c.options }

/-- Canonical `CREATE TABLE` node. -/
def normCreateTable (t : CreateTable) : CreateTable :=
  { t with
    columns := t.columns.map normColumnDef
    primaryKeys := normIndexKeys t.primaryKeys }

/-- Canonical `CREATE INDEX` node. -/
def normCreateIndex (i : CreateIndex) : CreateIndex :=
  { i with keys := normIndexKeys i.keys }

/-- Canonical `CREATE VECTOR INDEX` node. -/
def normCreateVectorIndex (v : CreateVectorIndex) : CreateVectorIndex :=
  { v with options := normOptionsOpt v.options }

/-- Canonical `CREATE CHANGE STREAM` node. -/
def normCreateChangeStream (c : CreateChangeStream) : CreateChangeStream :=
  { c with options := normOptionsOpt c.options }

/-- Canonical `CREATE SEQUENCE` node. -/
def normCreateSequence (s : CreateSequence) : CreateSequence :=
  { s with options := normOptionsOpt s.options }

/-- Canonical `CREATE MODEL` node. -/
def normCreateModel (m : CreateModel) : CreateModel :=
  { m with options := normOptionsOpt m.options }

/-- Canonical `ALTER DATABASE` node. -/
def normAlterDatabase (d : AlterDatabaseNode) : AlterDatabaseNode :=
  { d with options := normOptionsOpt d.options }

/-- The sum of AST node types that `astNode()` can return; `equalNode`
in the planner always compares nodes of the same definition kind. -/
inductive Node
  | schemaN (n : CreateSchema)
  | tableN (n : CreateTable)
  | columnN (n : ColumnDef)
  | indexN (n : CreateIndex)
  | searchIndexN (n : CreateSearchIndex)
  | vectorIndexN (n : CreateVectorIndex)
  | propertyGraphN (n : CreatePropertyGraph)
  | viewN (n : CreateView)
  | changeStreamN (n : CreateChangeStream)
  | sequenceN (n : CreateSequence)
  | modelN (n : CreateModel)
  | protoBundleN (n : CreateProtoBundle)
  | roleN (n : CreateRole)
  | grantN (n : GrantNode)
  | databaseN (n : AlterDatabaseNode)
  deriving DecidableEq, Repr

/-- Normalization of a wrapped node (applies the option-set and
index-key comparers at every occurrence, as `cmp.Equal` does). -/
def normNode : Node → Node
  | .schemaN n => .schemaN n
  | .tableN n => .tableN (normCreateTable n)
  | .columnN n => .columnN (normColumnDef n)
  | .indexN n => .indexN (normCreateIndex n)
  | .searchIndexN n => .searchIndexN n
  | .vectorIndexN n => .vectorIndexN (normCreateVectorIndex n)
  | .propertyGraphN n => .propertyGraphN n
  | .viewN n => .viewN n
  | .changeStreamN n => .changeStreamN (normCreateChangeStream n)
  | .sequenceN n => .sequenceN (normCreateSequence n)
  | .modelN n => .modelN (normCreateModel n)
  | .protoBundleN n => .protoBundleN n
  | .roleN n => .roleN n
  | .grantN n => .grantN n
  | .databaseN n => .databaseN (normAlterDatabase n)

/-- `equalNode` of `util.go` on whole definition nodes. -/
def equalNode (a b : Node) : Bool :=
  normNode a = normNode b

/-- `equalNode` restricted to column types (`column.alter`). -/
def equalType (a b : SchemaType) : Bool := a = b

/-- `equalNode` on optional options lists. -/
def equalOptions (a b : Option GOptions) : Bool :=
  normOptionsOpt a = normOptionsOpt b

/-- `equalNodes` on primary-key / index-key lists (pairwise, with the
index-key comparer). -/
def equalIndexKeys (a b : List IndexKey) : Bool :=
  normIndexKeys a = normIndexKeys b

/-- `equalNode` on optional `FOR` clauses of change streams. -/
def equalCSFor (a b : Option ChangeStreamFor) : Bool := a = b

/-- `equalNode` on optional default semantics. -/
def equalDefaultSemantics (a b : Option DefaultSemantics) : Bool := a = b

/-- `equalNode` on optional row deletion policies. -/
def equalRDP (a b : Option RowDeletionPolicy) : Bool := a = b

/-- `equalNodes` on synonym lists (order-sensitive, like the Go slice
comparison that guards the set-difference loops). -/
def equalSynonyms (a b : List String) : Bool := a = b

/-- `equalNodes` on table constraint lists (order-sensitive guard). -/
def equalConstraints (a b : List TableConstraint) : Bool := a = b

/-- `equalNode` on single table constraints. -/
def equalConstraint (a b : TableConstraint) : Bool := a = b

/-! ## Emitted DDL statements

`ast.DDL` restricted to the statements the differ consumes or emits.
`add()` returns the definition's own `CREATE` node, so create statements
wrap the same node structures as the input. -/

/-- `ast.AlterColumnAlteration` variants emitted by `column.alter`. -/
inductive ColumnAlteration
  | alterColumnType (type : SchemaType) (notNull : Bool) (defaultExpr : Option String)
  | alterColumnSetOptions (options : Option GOptions)
  | alterColumnSetDefault (e : String)
  | alterColumnDropDefault
  deriving DecidableEq, Repr

/-- `ast.TableAlteration` variants. -/
inductive TableAlteration
  | addColumn (c : ColumnDef)
  | dropColumn (name : String)
  | alterColumn (name : String) (a : ColumnAlteration)
  | addTableConstraint (tc : TableConstraint)
  | dropConstraint (name : String)
  | addRowDeletionPolicy (r : RowDeletionPolicy)
  | dropRowDeletionPolicy
  | replaceRowDeletionPolicy (r : RowDeletionPolicy)
  | addSynonym (name : String)
  | dropSynonym (name : String)
  deriving DecidableEq, Repr

/-- `ast.IndexAlteration` variants (`ADD/DROP STORED COLUMN`). -/
inductive IndexAlteration
  | addStoredColumn (name : String)
  | dropStoredColumn (name : String)
  deriving DecidableEq, Repr

/-- `ast.ChangeStreamAlteration` variants. -/
inductive ChangeStreamAlteration
  | setFor (f : ChangeStreamFor)
  | dropForAll
  | setOptions (options : Option GOptions)
  deriving DecidableEq, Repr

/-- The DDL statements of the supported surface, plus a tag for
unsupported input DDL. -/
inductive DDL
  | createSchema (n : CreateSchema)
  | dropSchema (name : String)
  | createTable (n : CreateTable)
  | dropTable (name : TPath)
  | alterTable (name : TPath) (a : TableAlteration)
  | createIndex (n : CreateIndex)
  | dropIndex (name : TPath)
  | alterIndex (name : TPath) (a : IndexAlteration)
  | createSearchIndex (n : CreateSearchIndex)
  | dropSearchIndex (name : String)
  | alterSearchIndex (name : String) (a : IndexAlteration)
  | createVectorIndex (n : CreateVectorIndex)
  | dropVectorIndex (name : String)
  | createPropertyGraph (n : CreatePropertyGraph)
  | dropPropertyGraph (name : String)
  | createView (n : CreateView)
  | dropView (name : TPath)
  | createChangeStream (n : CreateChangeStream)
  | dropChangeStream (name : String)
  | alterChangeStream (name : String) (a : ChangeStreamAlteration)
  | createSequence (n : CreateSequence)
  | dropSequence (name : TPath)
  | alterSequence (name : TPath) (options : Option GOptions)
  | createModel (n : CreateModel)
  | dropModel (name : String)
  | alterModel (name : String) (options : Option GOptions)
  | createProtoBundle (n : CreateProtoBundle)
  | dropProtoBundle
  | alterProtoBundle (ins : Option (List String)) (del : Option (List String))
  | createRole (n : CreateRole)
  | dropRole (name : String)
  | grantDDL (g : GrantNode)
  | revoke (roles : List String) (privilege : Privilege)
  | alterDatabase (n : AlterDatabaseNode)
  | unsupported (tag : String)
  deriving DecidableEq, Repr

/-! ## Definitions (`definition.go`)

One constructor per schema-object kind.  A column carries its parent
table node (`column.table` in the source); a grant carries its
pre-computed identifier (`grant.grantID`). -/

/-- The `definition` implementations of `definition.go`. -/
inductive Definition
  | table (node : CreateTable)
  | column (tbl : CreateTable) (node : ColumnDef)
  | index (node : CreateIndex)
  | searchIndex (node : CreateSearchIndex)
  | vectorIndex (node : CreateVectorIndex)
  | propertyGraph (node : CreatePropertyGraph)
  | view (node : CreateView)
  | changeStream (node : CreateChangeStream)
  | sequence (node : CreateSequence)
  | model (node : CreateModel)
  | protoBundle (node : CreateProtoBundle)
  | role (node : CreateRole)
  | grant (node : GrantNode) (gid : Identifier)
  | schema (node : CreateSchema)
  | database (node : AlterDatabaseNode)
  deriving DecidableEq, Repr

/-- `definition.id()`. -/
def Definition.id : Definition → Identifier
  | .table n => .tableID n.name.schema n.name.name
  | .column t n => .columnID t.name.schema t.name.name n.name
  | .index n => .indexID n.name.schema n.name.name
  | .searchIndex n => .searchIndexID n.name
  | .vectorIndex n => .vectorIndexID n.name
  | .propertyGraph n => .propertyGraphID n.name
  | .view n => .viewID n.name.schema n.name.name
  | .changeStream n => .changeStreamID n.name
  | .sequence n => .sequenceID n.name.schema n.name.name
  | .model n => .modelID n.name
  | .protoBundle _ => .protoBundleID
  | .role n => .roleID n.name
  | .grant _ gid => gid
  | .schema n => .schemaID n.name
  | .database n => .databaseID n.name

/-- `definition.astNode()`. -/
def Definition.astNode : Definition → Node
  | .table n => .tableN n
  | .column _ n => .columnN n
  | .index n => .indexN n
  | .searchIndex n => .searchIndexN n
  | .vectorIndex n => .vectorIndexN n
  | .propertyGraph n => .propertyGraphN n
  | .view n => .viewN n
  | .changeStream n => .changeStreamN n
  | .sequence n => .sequenceN n
  | .model n => .modelN n
  | .protoBundle n => .protoBundleN n
  | .role n => .roleN n
  | .grant n _ => .grantN n
  | .schema n => .schemaN n
  | .database n => .databaseN n

/-- `definition.add()`: the canonical creation statement. -/
def Definition.addDDL : Definition → DDL
  | .table n => .createTable n
  | .column t n => .alterTable t.name (.addColumn n)
  | .index n => .createIndex n
  | .searchIndex n => .createSearchIndex n
  | .vectorIndex n => .createVectorIndex n
  | .propertyGraph n => .createPropertyGraph n
  | .view n => .createView n
  | .changeStream n => .createChangeStream n
  | .sequence n => .createSequence n
  | .model n => .createModel n
  | .protoBundle n => .createProtoBundle n
  | .role n => .createRole n
  | .grant n _ => .grantDDL n
  | .schema n => .createSchema n
  | .database n => .alterDatabase n

/-- `definition.drop()`: the canonical removal statement; `none` for
`ALTER DATABASE`, which has no drop counterpart. -/
def Definition.dropDDL : Definition → Option DDL
  | .table n => some (.dropTable n.name)
  | .column t n => some (.alterTable t.name (.dropColumn n.name))
  | .index n => some (.dropIndex n.name)
  | .searchIndex n => some (.dropSearchIndex n.name)
  | .vectorIndex n => some (.dropVectorIndex n.name)
  | .propertyGraph n => some (.dropPropertyGraph n.name)
  | .view n => some (.dropView n.name)
  | .changeStream n => some (.dropChangeStream n.name)
  | .sequence n => some (.dropSequence n.name)
  | .model n => some (.dropModel n.name)
  | .protoBundle _ => some .dropProtoBundle
  | .role n => some (.dropRole n.name)
  | .grant n _ => some (.revoke n.roles n.privilege)
  | .schema n => some (.dropSchema n.name)
  | .database _ => none

/-- Dependencies contributed by one property-graph element
(`propertyGraph.dependsOn`, per-element body). -/
def pgElementDeps (elem : PGElement) : List Identifier :=
  let tid := newTableIDFromIdent elem.name
  tid :: (match elem.keys with
    | none => []
    | some (.nodeKey key) => key.columns.map (newColumnID tid)
    | some (.edgeKeys element source _) =>
        (match element with
          | none => []
          | some key => key.columns.map (newColumnID tid)) ++
        source.keys.map (newColumnID tid) ++
        source.referenceColumns.map
          (newColumnID (newTableIDFromIdent source.elementReference)))

/-- `definition.dependsOn()`, in the source's append order. -/
def Definition.dependsOn : Definition → List Identifier
  | .table n =>
      match n.name.schema with
      | some s => [.schemaID s]
      | none => []
  | .column t _ => [(Definition.table t).id]
  | .index n =>
      n.keys.map (fun k => newColumnID (newTableIDFromPath n.tableName) k.name) ++
      (match n.storing with
        | some st => st.columns.map (newColumnID (newTableIDFromPath n.tableName))
        | none => []) ++
      (match n.name.schema with
        | some s => [.schemaID s]
        | none => []) ++
      [newTableIDFromPath n.tableName]
  | .searchIndex n =>
      n.tokenListPart.map (newColumnID (newTableIDFromIdent n.tableName)) ++
      [newTableIDFromIdent n.tableName]
  | .vectorIndex n =>
      [newColumnID (newTableIDFromIdent n.tableName) n.columnName,
       newTableIDFromIdent n.tableName]
  | .propertyGraph n =>
      n.content.nodeTables.foldr (fun e acc => pgElementDeps e ++ acc) [] ++
      (match n.content.edgeTables with
        | some edges => edges.foldr (fun e acc => pgElementDeps e ++ acc) []
        | none => [])
  | .view n =>
      n.query.identRefs.foldr
        (fun i acc => newTableIDFromIdent i :: newViewIDFromIdent i :: acc) [] ++
      n.query.pathRefs.foldr
        (fun p acc => newTableIDFromPath p :: newViewIDFromPath p :: acc) []
  | .changeStream n =>
      match n.forClause with
      | none => []
      | some .forAll => []
      | some (.forTables tables) =>
          tables.foldr
            (fun t acc =>
              newTableIDFromIdent t.tableName ::
                (t.columns.map (newColumnID (newTableIDFromIdent t.tableName)) ++ acc))
            []
  | .sequence n =>
      match n.name.schema with
      | some s => [.schemaID s]
      | none => []
  | .model _ => []
  | .protoBundle _ => []
  | .role _ => []
  | .grant n _ =>
      n.roles.map .roleID ++
      (match n.privilege with
        | .privilegeOnTable privileges names =>
            names.map newTableIDFromIdent ++
            privileges.foldr
              (fun tp acc =>
                match tp with
                | .select cols =>
                    cols.map (newColumnID (newTableIDFromIdent (names.headD ""))) ++ acc
                | .update cols =>
                    cols.map (newColumnID (newTableIDFromIdent (names.headD ""))) ++ acc
                | .insert cols =>
                    cols.map (newColumnID (newTableIDFromIdent (names.headD ""))) ++ acc
                | .delete => acc)
              []
        | .selectPrivilegeOnView names => names.map newViewIDFromIdent
        | .selectPrivilegeOnChangeStream names => names.map .changeStreamID
        | .executePrivilegeOnTableFunction _ => []
        | .rolePrivilege names => names.map .roleID)
  | .schema _ => []
  | .database _ => []

/-- `table.columns()`: the column definitions of a `CREATE TABLE`, keyed
by column identifier with a later duplicate overwriting an earlier one
(Go map insertion); the model keeps the list order with keep-last
deduplication by name. -/
def dedupColumnsKeepLast : List ColumnDef → List ColumnDef
  | [] => []
  | c :: rest =>
      if rest.any (fun d => d.name = c.name) then dedupColumnsKeepLast rest
      else c :: dedupColumnsKeepLast rest

/-- The column list registered for a `CREATE TABLE` (see
`dedupColumnsKeepLast` above for the map semantics). -/
def tableColumns (t : CreateTable) : List ColumnDef :=
  dedupColumnsKeepLast t.columns

/-! ## Grant explosion and merging (`newGrant`, `grant.merge`) -/

/-- `uniqueIdent` of `util.go` (keep-first dedup by name),
with an explicit seen-set accumulator. -/
def uniqueIdentGo (seen : List String) : List String → List String
  | [] => []
  | x :: rest =>
      if seen.contains x then uniqueIdentGo seen rest
      else x :: uniqueIdentGo (x :: seen) rest

/-- `uniqueIdent` of `util.go`. -/
def uniqueIdent (l : List String) : List String :=
  uniqueIdentGo [] l

/-- `newGrant`: explode a `GRANT` into one definition per
(role, single target) pair. -/
def newGrantDefs (g : GrantNode) : List Definition :=
  match g.privilege with
  | .privilegeOnTable privileges names =>
      g.roles.foldr (fun r acc =>
        names.foldr (fun tableName acc2 =>
          Definition.grant
            ⟨[r], .privilegeOnTable privileges [tableName]⟩
            (.grantID r (newTableIDFromIdent tableName)) :: acc2) acc) []
  | .selectPrivilegeOnView names =>
      g.roles.foldr (fun r acc =>
        names.foldr (fun viewName acc2 =>
          Definition.grant
            ⟨[r], .selectPrivilegeOnView [viewName]⟩
            (.grantID r (newViewIDFromIdent viewName)) :: acc2) acc) []
  | .selectPrivilegeOnChangeStream names =>
      g.roles.foldr (fun r acc =>
        names.foldr (fun csName acc2 =>
          Definition.grant
            ⟨[r], .selectPrivilegeOnChangeStream [csName]⟩
            (.grantID r (.changeStreamID csName)) :: acc2) acc) []
  | .executePrivilegeOnTableFunction names =>
      g.roles.foldr (fun r acc =>
        names.foldr (fun fnName acc2 =>
          Definition.grant
            ⟨[r], .executePrivilegeOnTableFunction [fnName]⟩
            (.grantID r (.changeStreamReadFunctionID fnName)) :: acc2) acc) []
  | .rolePrivilege names =>
      g.roles.foldr (fun r acc =>
        names.foldr (fun roleName acc2 =>
          Definition.grant
            ⟨[r], .rolePrivilege [roleName]⟩
            (.grantID r (.roleID roleName)) :: acc2) acc) []

/-- Privilege bucket analysis used by `grant.merge`: flags for
column-less SELECT/UPDATE/INSERT/DELETE plus the concatenated column
lists. -/
def collectTablePrivileges (ps : List TablePrivilege) :
    Bool × Bool × Bool × Bool × List String × List String × List String :=
  ps.foldl
    (fun acc p =>
      let (hasSel, hasUpd, hasIns, hasDel, selCols, updCols, insCols) := acc
      match p with
      | .select cols =>
          if cols = [] then (true, hasUpd, hasIns, hasDel, selCols, updCols, insCols)
          else (hasSel, hasUpd, hasIns, hasDel, selCols ++ cols, updCols, insCols)
      | .update cols =>
          if cols = [] then (hasSel, true, hasIns, hasDel, selCols, updCols, insCols)
          else (hasSel, hasUpd, hasIns, hasDel, selCols, updCols ++ cols, insCols)
      | .insert cols =>
          if cols = [] then (hasSel, hasUpd, true, hasDel, selCols, updCols, insCols)
          else (hasSel, hasUpd, hasIns, hasDel, selCols, updCols, insCols ++ cols)
      | .delete => (hasSel, hasUpd, hasIns, true, selCols, updCols, insCols))
    (false, false, false, false, [], [], [])

/-- `grant.merge` on table privileges: reunion the privilege buckets of
both grants (column sets deduplicated, order-preserving) and rebuild the
canonical privilege list. -/
def mergeTablePrivileges (p1 p2 : List TablePrivilege) : List TablePrivilege :=
  let (hasSel, hasUpd, hasIns, hasDel, selCols, updCols, insCols) :=
    collectTablePrivileges (p1 ++ p2)
  let selCols := uniqueIdent selCols
  let updCols := uniqueIdent updCols
  let insCols := uniqueIdent insCols
  (if hasSel then [TablePrivilege.select []] else []) ++
  (if selCols ≠ [] then [TablePrivilege.select selCols] else []) ++
  (if hasUpd then [TablePrivilege.update []] else []) ++
  (if updCols ≠ [] then [TablePrivilege.update updCols] else []) ++
  (if hasIns then [TablePrivilege.insert []] else []) ++
  (if insCols ≠ [] then [TablePrivilege.insert insCols] else []) ++
  (if hasDel then [TablePrivilege.delete] else [])

/-- `grant.merge`: merge `other` into `g` (both grants share an
identifier, hence the same privilege shape); view / change-stream /
table-function / role grants carry no extra detail, so merging keeps
`g` unchanged.  Merging always succeeds for grants. -/
def grantMerge (g other : GrantNode) : GrantNode :=
  match g.privilege, other.privilege with
  | .privilegeOnTable p1 names, .privilegeOnTable p2 _ =>
      { g with privilege := .privilegeOnTable (mergeTablePrivileges p1 p2) names }
  | _, _ => g

/-! ## Definition sets (`newDefinitions`) -/

/-- The definition set of one side: identifier-keyed map, modelled as an
association list in insertion order with unique keys. -/
structure Definitions where
  all : List (Identifier × Definition)
  deriving DecidableEq, Repr

/-- Map lookup. -/
def defsLookup (d : Definitions) (id : Identifier) : Option Definition :=
  (d.all.find? (fun p => p.1 = id)).map (·.2)

/-- Errors of `newDefinitions`: strict-mode unsupported DDL, or
duplicated identifiers detected after grant merging. -/
inductive DefsError
  | unsupportedDDL (d : DDL)
  | duplicated (ids : List Identifier)
  deriving DecidableEq, Repr

/-- State of the `add` closure inside `newDefinitions`. -/
structure DefsBuild where
  all : List (Identifier × Definition)
  duplicated : List Identifier
  deriving Repr

/-- Replace the value stored at a key (used when a grant merges into the
already-stored grant). -/
def assocReplace (l : List (Identifier × Definition)) (id : Identifier)
    (v : Definition) : List (Identifier × Definition) :=
  l.map (fun p => if p.1 = id then (p.1, v) else p)

/-- The `add` closure of `newDefinitions`: merge colliding grants,
record any other identifier collision in the duplicate set. -/
def defsAdd (st : DefsBuild) (def_ : Definition) : DefsBuild :=
  let id := def_.id
  match (st.all.find? (fun p => p.1 = id)).map (·.2) with
  | some old =>
      match old, def_ with
      | .grant gOld _, .grant gNew _ =>
          { st with all := assocReplace st.all id (.grant (grantMerge gOld gNew) id) }
      | _, _ =>
          if st.duplicated.contains id then st
          else { st with duplicated := st.duplicated ++ [id] }
  | none => { st with all := st.all ++ [(id, def_)] }

/-- Definitions contributed by one DDL statement (`newDefinitions` loop
body): a `CREATE TABLE` also adds its columns, a `GRANT` explodes. -/
def ddlDefs : DDL → List Definition
  | .createSchema n => [.schema n]
  | .createTable n =>
      .table n :: (tableColumns n).map (fun c => .column n c)
  | .createIndex n => [.index n]
  | .createSearchIndex n => [.searchIndex n]
  | .createPropertyGraph n => [.propertyGraph n]
  | .createView n => [.view n]
  | .createChangeStream n => [.changeStream n]
  | .createSequence n => [.sequence n]
  | .createVectorIndex n => [.vectorIndex n]
  | .createModel n => [.model n]
  | .createProtoBundle n => [.protoBundle n]
  | .createRole n => [.role n]
  | .grantDDL g => newGrantDefs g
  | .alterDatabase n => [.database n]
  | _ => []

/-- Whether a DDL is outside the surface `newDefinitions` handles. -/
def DDL.isUnsupportedInput : DDL → Bool
  | .createSchema _ | .createTable _ | .createIndex _ | .createSearchIndex _
  | .createPropertyGraph _ | .createView _ | .createChangeStream _
  | .createSequence _ | .createVectorIndex _ | .createModel _
  | .createProtoBundle _ | .createRole _ | .grantDDL _ | .alterDatabase _ => false
  | _ => true

/-- The statement loop of `newDefinitions`. -/
def defsLoop (errorOnUnsupported : Bool) (st : DefsBuild) :
    List DDL → Except DefsError DefsBuild
  | [] => .ok st
  | ddl :: rest =>
      if ddl.isUnsupportedInput ∧ errorOnUnsupported then
        .error (.unsupportedDDL ddl)
      else
        defsLoop errorOnUnsupported ((ddlDefs ddl).foldl defsAdd st) rest

/-- `newDefinitions`: build one side's definition set; under the strict
option an unsupported DDL aborts immediately, and any identifier still
duplicated after grant merging is a hard error reported at the end. -/
def newDefinitions (ddls : List DDL) (errorOnUnsupported : Bool) :
    Except DefsError Definitions :=
  match defsLoop errorOnUnsupported ⟨[], []⟩ ddls with
  | .error e => .error e
  | .ok st =>
      if st.duplicated ≠ [] then .error (.duplicated st.duplicated)
      else .ok ⟨st.all⟩

/-! ## Migration states, operations, and the planner (`spannerdiff.go`)

Run failures distinguish the Go failure modes: a returned `error`
(`errored`), a runtime `panic` (`panicked`), and non-termination of the
unguarded cascade recursion (`diverged`, the fuel-exhaustion artifact of
the model). -/

/-- How a run can fail. -/
inductive Failure
  | panicked (msg : String)
  | errored (msg : String)
  | diverged
  deriving DecidableEq, Repr

/-- `migrationKind`. -/
inductive MigrationKind
  | undefined
  | noneK
  | add
  | alter
  | drop
  | dropAndAdd
  deriving DecidableEq, Repr

/-- `operationKind`. -/
inductive OperationKind
  | add
  | alter
  | drop
  deriving DecidableEq, Repr

/-- Rank giving the Go string comparison order of operation kinds
("add" < "alter" < "drop"). -/
def OperationKind.rank : OperationKind → Nat
  | .add => 0
  | .alter => 1
  | .drop => 2

/-- `operation`: an atomic DDL tagged with its owner identifier and that
definition's declared dependencies. -/
structure Operation where
  id : Identifier
  kind : OperationKind
  ddl : DDL
  dependsOn : List Identifier
  deriving DecidableEq, Repr

instance : Inhabited Operation :=
  ⟨⟨.protoBundleID, .add, .dropProtoBundle, []⟩⟩

/-- `newOperation`. -/
def newOperation (d : Definition) (k : OperationKind) (ddl : DDL) : Operation :=
  ⟨d.id, k, ddl, d.dependsOn⟩

/-- `migrationState`.  `attachedOps` is modelled from the spec: the
current planner attaches bespoke sub-operations to a state (change
stream `FOR` toggling) with explicit operation kinds, and the state
emits those instead of operations derived from `alterDDLs`; the
source file carrying this mechanism is missing from `src/`. -/
structure MigrationState where
  id : Identifier
  base : Option Definition
  target : Option Definition
  kind : MigrationKind
  alterDDLs : List DDL
  attachedOps : List Operation
  deriving DecidableEq, Repr

/-- `newMigrationState`. -/
def newMigrationState (id : Identifier) (base target : Option Definition)
    (kind : MigrationKind) (alters : List DDL := []) : MigrationState :=
  ⟨id, base, target, kind, alters, []⟩

/-- `migrationState.definition()`: the target definition when present,
else the base. -/
def MigrationState.defn (ms : MigrationState) : Option Definition :=
  match ms.target with
  | some t => some t
  | none => ms.base

/-- `migrationState.updateKind` with attached operations (the variadic
form used by the change-stream cascade; modelled from the spec). -/
def MigrationState.updateKindOps (ms : MigrationState) (k : MigrationKind)
    (ops : List Operation) : MigrationState :=
  { ms with kind := k, attachedOps := ops }

/-- `migrationState.operations()`: flatten a state into operations.  A
missing definition on the side a kind reads is the nil dereference the
Go code would hit; a `drop()` returning no statement (` ALTER DATABASE`)
is silently skipped, as the spec prescribes for the database kind. -/
def stateOperations (ms : MigrationState) : Except Failure (List Operation) :=
  match ms.kind with
  | .add =>
      match ms.target with
      | some t => .ok [newOperation t .add t.addDDL]
      | none => .error (.panicked ("operations: nil target on add"))
  | .alter =>
      if ms.attachedOps ≠ [] then .ok ms.attachedOps
      else
        match ms.target with
        | some t => .ok (ms.alterDDLs.map (fun ddl => newOperation t .alter ddl))
        | none => .error (.panicked ("operations: nil target on alter"))
  | .drop =>
      match ms.base with
      | some b =>
          match b.dropDDL with
          | some d => .ok [newOperation b .drop d]
          | none => .ok []
      | none => .error (.panicked ("operations: nil base on drop"))
  | .dropAndAdd =>
      match ms.base, ms.target with
      | some b, some t =>
          .ok ((match b.dropDDL with
                | some d => [newOperation b .drop d]
                | none => []) ++ [newOperation t .add t.addDDL])
      | _, _ => .error (.panicked ("operations: nil side on drop and add"))
  | .noneK => .ok []
  | .undefined => .ok []

/-- The planner: per-identifier states plus the static reverse
dependency map (`migration.states`, `migration.dependOn`). -/
structure Migration where
  states : List (Identifier × MigrationState)
  dependOn : List (Identifier × List Definition)
  deriving DecidableEq, Repr

/-- Current state of an identifier (every queried identifier was
initialized; the default mirrors an untouched `Undefined` state). -/
def Migration.stateOf (m : Migration) (id : Identifier) : MigrationState :=
  match m.states.find? (fun p => p.1 = id) with
  | some p => p.2
  | none => newMigrationState id none none .undefined

/-- `migration.kind`. -/
def Migration.kindOf (m : Migration) (id : Identifier) : MigrationKind :=
  (m.stateOf id).kind

/-- Definitions registered as depending on an identifier. -/
def Migration.receiversOf (m : Migration) (id : Identifier) : List Definition :=
  match m.dependOn.find? (fun p => p.1 = id) with
  | some p => p.2
  | none => []

/-- Store a state (replace an existing entry, else append). -/
def Migration.setState (m : Migration) (s : MigrationState) : Migration :=
  if m.states.any (fun p => p.1 = s.id) then
    { m with states := m.states.map (fun p => if p.1 = s.id then (p.1, s) else p) }
  else
    { m with states := m.states ++ [(s.id, s)] }

/-- Register one definition under each of its declared dependencies. -/
def registerDeps (dep : List (Identifier × List Definition)) (d : Definition) :
    List (Identifier × List Definition) :=
  d.dependsOn.foldl
    (fun acc id =>
      if acc.any (fun p => p.1 = id) then
        acc.map (fun p => if p.1 = id then (p.1, p.2 ++ [d]) else p)
      else
        acc ++ [(id, [d])])
    dep

/-- `migration.initializeState`. -/
def Migration.initializeState (m : Migration) (base target : Option Definition) :
    Migration :=
  match (match target with | some t => some t | none => base) with
  | none => m
  | some d =>
      let m := m.setState (newMigrationState d.id base target .undefined)
      { m with dependOn := registerDeps m.dependOn d }

/-- `newMigration`: initialize a state per identifier of either side
(both-side identifiers are initialized twice, which also registers
their dependencies twice, as in the source). -/
def newMigration (base target : Definitions) : Migration :=
  let m : Migration := ⟨[], []⟩
  let m := base.all.foldl
    (fun m p => m.initializeState (some p.2) (defsLookup target p.1)) m
  target.all.foldl
    (fun m p => m.initializeState (defsLookup base p.1) (some p.2)) m

/-! ### Cascade (`onDependencyChange` / `updateState`)

Each `onDependencyChange` body is split into a pure decision
(`depChangeAction`, faithful to the type switches of `definition.go`)
and the recursive state update.  The Go recursion has no termination
guard, so the model threads fuel; running out of fuel is the model's
rendering of the non-terminating run. -/

/-- The update (new kind plus attached operations) a receiver performs
when notified that `dep` changed, or `none` for no reaction; panics
mirror the `unexpected dependOn type` branches. -/
def depChangeAction (receiver : Definition) (dep : MigrationState) :
    Except Failure (Option (MigrationKind × List Operation)) :=
  match receiver with
  | .column _ _ =>
      match dep.defn with
      | some (.table _) =>
          match dep.kind with
          | .add | .dropAndAdd | .drop => .ok (some (.noneK, []))
          | _ => .ok none
      | _ => .error (.panicked ("unexpected dependOn type on column"))
  | .index _ =>
      match dep.defn with
      | some (.column _ _) | some (.table _) | some (.schema _) =>
          match dep.kind with
          | .dropAndAdd => .ok (some (.dropAndAdd, []))
          | _ => .ok none
      | _ => .error (.panicked ("unexpected dependOn type on index"))
  | .searchIndex _ =>
      match dep.defn with
      | some (.column _ _) | some (.table _) =>
          match dep.kind with
          | .dropAndAdd => .ok (some (.dropAndAdd, []))
          | _ => .ok none
      | _ => .error (.panicked ("unexpected dependOn type on search index"))
  | .vectorIndex _ =>
      match dep.defn with
      | some (.column _ _) | some (.table _) =>
          match dep.kind with
          | .dropAndAdd => .ok (some (.dropAndAdd, []))
          | _ => .ok none
      | _ => .error (.panicked ("unexpected dependOn type on vector index"))
  | .propertyGraph _ =>
      match dep.defn with
      | some (.column _ _) | some (.table _) =>
          match dep.kind with
          | .dropAndAdd => .ok (some (.dropAndAdd, []))
          | _ => .ok none
      | _ => .error (.panicked ("unexpected dependOn type on property graph"))
  | .view _ =>
      match dep.defn with
      | some (.column _ _) | some (.table _) | some (.view _) =>
          match dep.kind with
          | .dropAndAdd => .ok (some (.dropAndAdd, []))
          | _ => .ok none
      | _ => .error (.panicked ("unexpected dependOn type on view"))
  | .changeStream cs =>
      match dep.defn with
      | some (.column _ _) | some (.table _) =>
          match dep.kind with
          | .dropAndAdd =>
              match cs.forClause with
              | some .forAll => .ok none
              | some f =>
                  .ok (some (.alter,
                    [newOperation (.changeStream cs) .drop
                      (.alterChangeStream cs.name .dropForAll),
                     newOperation (.changeStream cs) .add
                      (.alterChangeStream cs.name (.setFor f))]))
              | none => .ok none
          | _ => .ok none
      | _ => .error (.panicked ("unexpected dependOn type on change stream"))
  | .grant _ _ =>
      match dep.defn with
      | some (.role _) | some (.table _) | some (.column _ _)
      | some (.view _) | some (.changeStream _) =>
          match dep.kind with
          | .dropAndAdd => .ok (some (.dropAndAdd, []))
          | _ => .ok none
      | _ => .error (.panicked ("unexpected dependOn type on grant"))
  | .table _ => .ok none
  | .schema _ => .ok none
  | .sequence _ => .ok none
  | .model _ => .ok none
  | .protoBundle _ => .ok none
  | .role _ => .ok none
  | .database _ => .ok none

/-- The notification loop over the receivers of an updated identifier,
parameterized by the recursive state updater (`updateStateFuel` at the
next smaller fuel). -/
def cascadeWith (upd : Migration → MigrationState → Except Failure Migration) :
    Migration → MigrationState → List Definition → Except Failure Migration
  | m, _, [] => .ok m
  | m, s, r :: rs =>
      match depChangeAction r s with
      | .error e => .error e
      | .ok none => cascadeWith upd m s rs
      | .ok (some (k, ops)) =>
          match upd m ((m.stateOf r.id).updateKindOps k ops) with
          | .error e => .error e
          | .ok m2 => cascadeWith upd m2 s rs

/-- `migration.updateState`: store the state, then notify every
registered dependent. -/
def updateStateFuel : Nat → Migration → MigrationState → Except Failure Migration
  | 0, _, _ => .error .diverged
  | fuel + 1, m, s =>
      cascadeWith (updateStateFuel fuel) (m.setState s) s (m.receiversOf s.id)

/-- `migration.updateStateIfUndefined`: the first rule to claim an
identifier wins. -/
def updateStateIfUndefined (fuel : Nat) (m : Migration) (s : MigrationState) :
    Except Failure Migration :=
  if m.kindOf s.id ≠ .undefined then .ok m
  else updateStateFuel fuel m s

/-! ### Per-kind alter rules (`definition.go` `alter` methods)

Each rule is split into a pure decision — `none` when the rule returns
without claiming a state, `some (kind, ddls)` when it calls
`setIfUndefined` — and a dispatcher that performs the guarded update.
`newAlterState` / `newDropAndAddState` are missing from `src/`; modelled
from the spec and from the `newMigrationState` calls of the older
planner revision: the state is keyed by the target definition's
identifier and carries both definitions. -/

/-- Named-constraint map of a table (`map[string]*ast.TableConstraint`
keyed by constraint name, unnamed constraints skipped, a later duplicate
name overwriting an earlier one). -/
def dedupConstraintsKeepLast :
    List (String × TableConstraint) → List (String × TableConstraint)
  | [] => []
  | e :: rest =>
      if rest.any (fun f => f.1 = e.1) then dedupConstraintsKeepLast rest
      else e :: dedupConstraintsKeepLast rest

/-- See `dedupConstraintsKeepLast` for the map semantics. -/
def namedConstraints (l : List TableConstraint) : List (String × TableConstraint) :=
  dedupConstraintsKeepLast (l.filterMap (fun tc => tc.name.map (fun n => (n, tc))))

/-- Row-deletion-policy diff DDLs of `table.alter`. -/
def tableRDPDiff (b t : CreateTable) : List DDL :=
  if ¬ equalRDP b.rowDeletionPolicy t.rowDeletionPolicy then
    match b.rowDeletionPolicy, t.rowDeletionPolicy with
    | none, some r => [.alterTable t.name (.addRowDeletionPolicy r)]
    | some _, none => [.alterTable t.name .dropRowDeletionPolicy]
    | _, some r => [.alterTable t.name (.replaceRowDeletionPolicy r)]
    | _, none => []
  else []

/-- Synonym set-difference DDLs of `table.alter`: drop the base-only
synonyms, then add the target-only ones.  The Go loops range over Go
maps; `ordSyn` models that per-run iteration order. -/
def tableSynonymDiff (b t : CreateTable) (ordSyn : List String → List String) :
    List DDL :=
  if ¬ equalSynonyms b.synonyms t.synonyms then
    ((ordSyn (uniqueIdent b.synonyms)).filter
        (fun s => ¬ t.synonyms.contains s)).map
      (fun s => .alterTable t.name (.dropSynonym s)) ++
    ((ordSyn (uniqueIdent t.synonyms)).filter
        (fun s => ¬ b.synonyms.contains s)).map
      (fun s => .alterTable t.name (.addSynonym s))
  else []

/-- Constraint diff DDLs of `table.alter`: add the new named
constraints, drop the missing ones, then drop-and-add each changed one. -/
def tableConstraintDiff (b t : CreateTable) : List DDL :=
  if ¬ equalConstraints b.tableConstraints t.tableConstraints then
    let baseCs := namedConstraints b.tableConstraints
    let targetCs := namedConstraints t.tableConstraints
    (targetCs.filter (fun e => ¬ baseCs.any (fun f => f.1 = e.1))).map
      (fun e => .alterTable t.name (.addTableConstraint e.2)) ++
    (baseCs.filter (fun e => ¬ targetCs.any (fun f => f.1 = e.1))).map
      (fun e => .alterTable t.name (.dropConstraint e.1)) ++
    (baseCs.filterMap (fun e =>
      match targetCs.find? (fun f => f.1 = e.1) with
      | some f =>
          if ¬ equalConstraint e.2 f.2 then
            some ([DDL.alterTable t.name (.dropConstraint f.1),
                   DDL.alterTable t.name (.addTableConstraint f.2)])
          else none
      | none => none)).flatten
  else []

/-- `table.alter`: primary-key change means recreate; if only columns
differ the table contributes nothing; otherwise compose alters from the
row-deletion-policy, synonym and constraint diffs, falling back to
recreate when the diff produces no DDL. -/
def tableAlterDecision (b t : CreateTable) (ordSyn : List String → List String) :
    Option (MigrationKind × List DDL) :=
  if ¬ equalIndexKeys b.primaryKeys t.primaryKeys then
    some (.dropAndAdd, [])
  else if equalNode (.tableN { b with columns := [] }) (.tableN { t with columns := [] }) then
    none
  else
    let ddls := tableRDPDiff b t ++ tableSynonymDiff b t ordSyn ++
      tableConstraintDiff b t
    if ddls = [] then some (.dropAndAdd, [])
    else some (.alter, ddls)

/-- The permitted column type transition set of `column.alter`
(`tupleOf` switch). -/
def permittedTypeChange (a b : ColumnType) : Bool :=
  (a = .scalar .stringT ∧ b = .scalar .bytesT) ∨
  (a = .scalar .bytesT ∧ b = .scalar .stringT) ∨
  (a = .protoOrEnum ∧ b = .scalar .bytesT) ∨
  (a = .scalar .bytesT ∧ b = .protoOrEnum) ∨
  (a = .scalar .stringT ∧ b = .scalar .stringT) ∨
  (a = .scalar .bytesT ∧ b = .scalar .bytesT) ∨
  (a = .array (.scalar .stringT) ∧ b = .array (.scalar .stringT)) ∨
  (a = .array (.scalar .bytesT) ∧ b = .array (.scalar .bytesT)) ∨
  (a = .array .protoOrEnum ∧ b = .array .protoOrEnum)

/-- `column.alter` after the parent-table guard: same type composes
`NOT NULL` / options / default alters; a different type within the
permitted transition set emits a single `ALTER COLUMN` carrying the
target type (plus default expression when one is present), anything
else recreates the column. -/
def columnAlterDecision (tTbl : CreateTable) (b t : ColumnDef) :
    MigrationKind × List DDL :=
  if equalType b.type t.type then
    let notNullPart : List DDL × Bool :=
      if b.notNull ≠ t.notNull then
        match t.defaultSemantics with
        | none =>
            ([.alterTable tTbl.name (.alterColumn t.name
               (.alterColumnType t.type t.notNull none))], false)
        | some (.defaultExpr e) =>
            ([.alterTable tTbl.name (.alterColumn t.name
               (.alterColumnType t.type t.notNull (some e)))], true)
        | some _ => ([], false)
      else ([], false)
    let optionsPart : List DDL :=
      if ¬ equalOptions b.options t.options then
        [.alterTable tTbl.name (.alterColumn t.name (.alterColumnSetOptions t.options))]
      else []
    let defaultPart : List DDL :=
      if ¬ notNullPart.2 ∧ ¬ equalDefaultSemantics b.defaultSemantics t.defaultSemantics then
        match t.defaultSemantics with
        | none => [.alterTable tTbl.name (.alterColumn t.name .alterColumnDropDefault)]
        | some (.defaultExpr e) =>
            [.alterTable tTbl.name (.alterColumn t.name (.alterColumnSetDefault e))]
        | some _ => []
      else []
    (.alter, notNullPart.1 ++ optionsPart ++ defaultPart)
  else
    if permittedTypeChange (columnTypeOf b.type) (columnTypeOf t.type) then
      match t.defaultSemantics with
      | none =>
          (.alter, [.alterTable tTbl.name (.alterColumn t.name
            (.alterColumnType t.type t.notNull none))])
      | some (.defaultExpr e) =>
          (.alter, [.alterTable tTbl.name (.alterColumn t.name
            (.alterColumnType t.type t.notNull (some e)))])
      | some _ => (.dropAndAdd, [])
    else (.dropAndAdd, [])

/-- Stored-column list of an optional `STORING` clause. -/
def storingColumns : Option Storing → List String
  | none => []
  | some st => st.columns

/-- `index.alter` after the state guard: equal up to `STORING` yields
per-column `ALTER INDEX ADD/DROP STORED COLUMN`, anything else
recreates. -/
def indexAlterDecision (b t : CreateIndex) : MigrationKind × List DDL :=
  if equalNode (.indexN { b with storing := none }) (.indexN { t with storing := none }) then
    let baseCols := uniqueIdent (storingColumns b.storing)
    let targetCols := uniqueIdent (storingColumns t.storing)
    (.alter,
      (targetCols.filter (fun c => ¬ baseCols.contains c)).map
        (fun c => .alterIndex t.name (.addStoredColumn c)) ++
      (baseCols.filter (fun c => ¬ targetCols.contains c)).map
        (fun c => .alterIndex t.name (.dropStoredColumn c)))
  else (.dropAndAdd, [])

/-- `searchIndex.alter` after the state guard (same shape as
`index.alter`). -/
def searchIndexAlterDecision (b t : CreateSearchIndex) : MigrationKind × List DDL :=
  if (({ b with storing := none } : CreateSearchIndex) =
      ({ t with storing := none } : CreateSearchIndex)) then
    let baseCols := uniqueIdent (storingColumns b.storing)
    let targetCols := uniqueIdent (storingColumns t.storing)
    (.alter,
      (targetCols.filter (fun c => ¬ baseCols.contains c)).map
        (fun c => .alterSearchIndex t.name (.addStoredColumn c)) ++
      (baseCols.filter (fun c => ¬ targetCols.contains c)).map
        (fun c => .alterSearchIndex t.name (.dropStoredColumn c)))
  else (.dropAndAdd, [])

/-- `changeStream.alter`: diff the `FOR` clause and the options,
claiming no state when neither differs. -/
def changeStreamAlterDecision (b t : CreateChangeStream) :
    Option (MigrationKind × List DDL) :=
  let forPart : List DDL :=
    if ¬ equalCSFor b.forClause t.forClause then
      match t.forClause with
      | none => [.alterChangeStream b.name .dropForAll]
      | some f => [.alterChangeStream t.name (.setFor f)]
    else []
  let optionsPart : List DDL :=
    if ¬ equalOptions b.options t.options then
      [.alterChangeStream t.name (.setOptions t.options)]
    else []
  if forPart ++ optionsPart = [] then none
  else some (.alter, forPart ++ optionsPart)

/-- `sequence.alter`: an options difference emits
`ALTER SEQUENCE ... SET OPTIONS`, anything else panics
(`unsupported sequence alternation`). -/
def sequenceAlterDecision (b t : CreateSequence) :
    Except Failure (MigrationKind × List DDL) :=
  if ¬ equalOptions b.options t.options then
    .ok (.alter, [.alterSequence t.name t.options])
  else
    .error (.panicked ("unsupported sequence alternation"))

/-- `model.alter`: everything but options equal yields
`ALTER MODEL ... SET OPTIONS`, else `CREATE OR REPLACE MODEL`. -/
def modelAlterDecision (b t : CreateModel) : MigrationKind × List DDL :=
  if equalNode (.modelN { b with options := none }) (.modelN { t with options := none }) then
    (.alter, [.alterModel t.name t.options])
  else
    (.alter, [.createModel { t with orReplace := true }])

/-- `protoBundle.alter`: one `ALTER PROTO BUNDLE` with `INSERT` of the
added type names and `DELETE` of the dropped ones (by textual form). -/
def protoBundleAlterDecision (b t : CreateProtoBundle) : MigrationKind × List DDL :=
  let added := (uniqueIdent t.types).filter (fun ty => ¬ b.types.contains ty)
  let dropped := (uniqueIdent b.types).filter (fun ty => ¬ t.types.contains ty)
  (.alter, [.alterProtoBundle
    (if added ≠ [] then some added else none)
    (if dropped ≠ [] then some dropped else none)])

/-- `processPrivilegeDetails` of `grant.alter`: bucket flags plus
ordered deduplicated column lists per bucket. -/
def processPrivilegeDetails (ps : List TablePrivilege) :
    Bool × Bool × Bool × Bool × List String × List String × List String :=
  ps.foldl
    (fun acc p =>
      let (hasSel, hasUpd, hasIns, hasDel, selCols, updCols, insCols) := acc
      match p with
      | .select cols =>
          if cols = [] then (true, hasUpd, hasIns, hasDel, selCols, updCols, insCols)
          else (hasSel, hasUpd, hasIns, hasDel,
                uniqueIdent (selCols ++ cols), updCols, insCols)
      | .update cols =>
          if cols = [] then (hasSel, true, hasIns, hasDel, selCols, updCols, insCols)
          else (hasSel, hasUpd, hasIns, hasDel,
                selCols, uniqueIdent (updCols ++ cols), insCols)
      | .insert cols =>
          if cols = [] then (hasSel, hasUpd, true, hasDel, selCols, updCols, insCols)
          else (hasSel, hasUpd, hasIns, hasDel,
                selCols, updCols, uniqueIdent (insCols ++ cols))
      | .delete => (hasSel, hasUpd, hasIns, true, selCols, updCols, insCols))
    (false, false, false, false, [], [], [])

/-- Flag difference contribution of one privilege bucket. -/
def privFlagDiff (baseHas targetHas : Bool) (mk : TablePrivilege) :
    List TablePrivilege × List TablePrivilege :=
  if baseHas ≠ targetHas then
    if targetHas then ([mk], []) else ([], [mk])
  else ([], [])

/-- Column-set difference contribution of one privilege bucket. -/
def privColsDiff (baseCols targetCols : List String)
    (mk : List String → TablePrivilege) :
    List TablePrivilege × List TablePrivilege :=
  if baseCols ≠ targetCols then
    let addedCols := targetCols.filter (fun c => ¬ baseCols.contains c)
    let droppedCols := baseCols.filter (fun c => ¬ targetCols.contains c)
    ((if addedCols ≠ [] then [mk addedCols] else []),
     (if droppedCols ≠ [] then [mk droppedCols] else []))
  else ([], [])

/-- `grant.alter` on table privileges: at most one `REVOKE` (dropped
privileges/columns) followed by at most one `GRANT` (added ones). -/
def grantTableAlterDecision (roles : List String) (names : List String)
    (basePs targetPs : List TablePrivilege) : MigrationKind × List DDL :=
  let (bSel, bUpd, bIns, bDel, bSelC, bUpdC, bInsC) := processPrivilegeDetails basePs
  let (tSel, tUpd, tIns, tDel, tSelC, tUpdC, tInsC) := processPrivilegeDetails targetPs
  let d1 := privFlagDiff bSel tSel (.select [])
  let d2 := privColsDiff bSelC tSelC .select
  let d3 := privFlagDiff bUpd tUpd (.update [])
  let d4 := privColsDiff bUpdC tUpdC .update
  let d5 := privFlagDiff bIns tIns (.insert [])
  let d6 := privColsDiff bInsC tInsC .insert
  let d7 := privFlagDiff bDel tDel .delete
  let added := d1.1 ++ d2.1 ++ d3.1 ++ d4.1 ++ d5.1 ++ d6.1 ++ d7.1
  let dropped := d1.2 ++ d2.2 ++ d3.2 ++ d4.2 ++ d5.2 ++ d6.2 ++ d7.2
  (.alter,
    (if dropped ≠ [] then
      [DDL.revoke roles (.privilegeOnTable dropped names)] else []) ++
    (if added ≠ [] then
      [DDL.grantDDL ⟨roles, .privilegeOnTable added names⟩] else []))

/-- `grant.alter`: only table grants reach the diff; other grant shapes
cannot differ under an equal identifier and panic if they somehow do. -/
def grantAlterDecision (b t : GrantNode) :
    Except Failure (MigrationKind × List DDL) :=
  match b.privilege, t.privilege with
  | .privilegeOnTable basePs _, .privilegeOnTable targetPs targetNames =>
      .ok (grantTableAlterDecision t.roles targetNames basePs targetPs)
  | _, _ => .error (.panicked ("unsupported GRANT alteration"))

/-- Dispatch `baseDef.alter(targetDef, m)` on the definition kind,
performing the guarded state update.  The column / index / search index
rules first skip when their own state is already `NoOp` (the object is
covered by a table recreate). -/
def alterDispatch (fuel : Nat) (m : Migration) (bdef tdef : Definition)
    (ordSyn : List String → List String) : Except Failure Migration :=
  match bdef, tdef with
  | .table b, .table t =>
      match tableAlterDecision b t ordSyn with
      | none => .ok m
      | some (k, dd) =>
          updateStateIfUndefined fuel m
            { newMigrationState tdef.id (some bdef) (some tdef) k with alterDDLs := dd }
  | .column _ b, .column ttbl t =>
      if m.kindOf bdef.id = .noneK then .ok m
      else
        let (k, dd) := columnAlterDecision ttbl b t
        updateStateIfUndefined fuel m
          { newMigrationState tdef.id (some bdef) (some tdef) k with alterDDLs := dd }
  | .index b, .index t =>
      if m.kindOf bdef.id = .noneK then .ok m
      else
        let (k, dd) := indexAlterDecision b t
        updateStateIfUndefined fuel m
          { newMigrationState tdef.id (some bdef) (some tdef) k with alterDDLs := dd }
  | .searchIndex b, .searchIndex t =>
      if m.kindOf bdef.id = .noneK then .ok m
      else
        let (k, dd) := searchIndexAlterDecision b t
        updateStateIfUndefined fuel m
          { newMigrationState tdef.id (some bdef) (some tdef) k with alterDDLs := dd }
  | .vectorIndex _, .vectorIndex _ =>
      updateStateIfUndefined fuel m
        (newMigrationState tdef.id (some bdef) (some tdef) .dropAndAdd)
  | .propertyGraph _, .propertyGraph t =>
      updateStateIfUndefined fuel m
        { newMigrationState tdef.id (some bdef) (some tdef) .alter with
          alterDDLs := [.createPropertyGraph { t with orReplace := true }] }
  | .view _, .view t =>
      updateStateIfUndefined fuel m
        { newMigrationState tdef.id (some bdef) (some tdef) .alter with
          alterDDLs := [.createView { t with orReplace := true }] }
  | .changeStream b, .changeStream t =>
      match changeStreamAlterDecision b t with
      | none => .ok m
      | some (k, dd) =>
          updateStateIfUndefined fuel m
            { newMigrationState tdef.id (some bdef) (some tdef) k with alterDDLs := dd }
  | .sequence b, .sequence t =>
      match sequenceAlterDecision b t with
      | .error e => .error e
      | .ok (k, dd) =>
          updateStateIfUndefined fuel m
            { newMigrationState tdef.id (some bdef) (some tdef) k with alterDDLs := dd }
  | .model b, .model t =>
      let (k, dd) := modelAlterDecision b t
      updateStateIfUndefined fuel m
        { newMigrationState tdef.id (some bdef) (some tdef) k with alterDDLs := dd }
  | .protoBundle b, .protoBundle t =>
      let (k, dd) := protoBundleAlterDecision b t
      updateStateIfUndefined fuel m
        { newMigrationState tdef.id (some bdef) (some tdef) k with alterDDLs := dd }
  | .role _, .role _ =>
      updateStateIfUndefined fuel m
        (newMigrationState tdef.id (some bdef) (some tdef) .dropAndAdd)
  | .grant b _, .grant t _ =>
      match grantAlterDecision b t with
      | .error e => .error e
      | .ok (k, dd) =>
          updateStateIfUndefined fuel m
            { newMigrationState tdef.id (some bdef) (some tdef) k with alterDDLs := dd }
  | .schema _, .schema _ =>
      updateStateIfUndefined fuel m
        (newMigrationState tdef.id (some bdef) (some tdef) .dropAndAdd)
  | .database _, .database t =>
      updateStateIfUndefined fuel m
        { newMigrationState tdef.id (some bdef) (some tdef) .alter with
          alterDDLs := [.alterDatabase ⟨t.name, t.options⟩] }
  | _, _ => .error (.panicked ("alter: mismatched definition kinds"))

/-! ### The three planning passes and state flattening -/

/-- The loop of `migration.drops` over the base entries. -/
def dropsLoop (fuel : Nat) (target : Definitions) :
    Migration → List (Identifier × Definition) → Except Failure Migration
  | m, [] => .ok m
  | m, p :: rest =>
      if (defsLookup target p.1).isSome then dropsLoop fuel target m rest
      else
        match updateStateIfUndefined fuel m (newMigrationState p.1 (some p.2) none .drop) with
        | .error e => .error e
        | .ok m2 => dropsLoop fuel target m2 rest

/-- `migration.drops`: identifiers only in base become tentative drops. -/
def dropsPhase (fuel : Nat) (m : Migration) (base target : Definitions) :
    Except Failure Migration :=
  dropsLoop fuel target m base.all

/-- The loop of `migration.alters` over the (reordered) target entries. -/
def altersLoop (fuel : Nat) (base : Definitions) (ordSyn : List String → List String) :
    Migration → List (Identifier × Definition) → Except Failure Migration
  | m, [] => .ok m
  | m, p :: rest =>
      match defsLookup base p.1 with
      | none => altersLoop fuel base ordSyn m rest
      | some bdef =>
          if equalNode bdef.astNode p.2.astNode then altersLoop fuel base ordSyn m rest
          else
            match alterDispatch fuel m bdef p.2 ordSyn with
            | .error e => .error e
            | .ok m2 => altersLoop fuel base ordSyn m2 rest

/-- `migration.alters`: identifiers on both sides with non-equal ASTs
delegate to the per-kind alter rule.  `pi` models the per-run iteration
order of the target definition map. -/
def altersPhase (fuel : Nat) (m : Migration) (base target : Definitions)
    (pi_ : List (Identifier × Definition) → List (Identifier × Definition))
    (ordSyn : List String → List String) : Except Failure Migration :=
  altersLoop fuel base ordSyn m (pi_ target.all)

/-- The loop of `migration.adds` over the target entries. -/
def addsLoop (fuel : Nat) (base : Definitions) :
    Migration → List (Identifier × Definition) → Except Failure Migration
  | m, [] => .ok m
  | m, p :: rest =>
      if (defsLookup base p.1).isSome then addsLoop fuel base m rest
      else
        match updateStateIfUndefined fuel m (newMigrationState p.1 none (some p.2) .add) with
        | .error e => .error e
        | .ok m2 => addsLoop fuel base m2 rest

/-- `migration.adds`: identifiers only in target become tentative adds. -/
def addsPhase (fuel : Nat) (m : Migration) (base target : Definitions) :
    Except Failure Migration :=
  addsLoop fuel base m target.all

/-- The planning portion of `diffDefinitions`: initial states, then
drops, alters, adds. -/
def planStates (fuel : Nat) (base target : Definitions)
    (pi_ : List (Identifier × Definition) → List (Identifier × Definition))
    (ordSyn : List String → List String) : Except Failure Migration :=
  match dropsPhase fuel (newMigration base target) base target with
  | .error e => .error e
  | .ok m =>
      match altersPhase fuel m base target pi_ ordSyn with
      | .error e => .error e
      | .ok m =>
          match addsPhase fuel m base target with
          | .error e => .error e
          | .ok m => .ok m

/-- Flatten a list of states into operations. -/
def flattenLoop : List (Identifier × MigrationState) → Except Failure (List Operation)
  | [] => .ok []
  | p :: rest =>
      match stateOperations p.2 with
      | .error e => .error e
      | .ok ops =>
          match flattenLoop rest with
          | .error e => .error e
          | .ok acc => .ok (ops ++ acc)

/-- Flatten every state into its operations (state-map order). -/
def flattenOps (m : Migration) : Except Failure (List Operation) :=
  flattenLoop m.states

/-! ## Operation orderer (`operation.go`) -/

/-- The pre-sort comparison: `(identifier.ID(), operation kind)`
ascending. -/
def opLE (a b : Operation) : Prop :=
  strLtB a.id.ID b.id.ID = true ∨ (a.id.ID = b.id.ID ∧ a.kind.rank ≤ b.kind.rank)

instance : DecidableRel opLE := fun a b => by
  unfold opLE
  infer_instance

/-- The node an identifier resolves to in the toposort's `nodeMap`: the
last operation of the list carrying that identifier. -/
def lastIdxOf (ops : List Operation) (dep : Identifier) : Option Nat :=
  (List.range ops.length).foldl
    (fun acc j => if (ops.getD j default).id = dep then some j else acc)
    none

/-- Edges of one operation: each dependency that resolves in the node
map, in declaration order. -/
def childrenOf (ops : List Operation) (i : Nat) : List Nat :=
  ((ops.getD i default).dependsOn).filterMap (lastIdxOf ops)

/-- Depth-first-search state of the topological sort: the visiting
stack, the completed nodes in completion order (the sorted output), and
whether a cycle was observed. -/
structure TopoState where
  visiting : List Nat
  done : List Nat
  cyc : Bool
  deriving DecidableEq, Repr

/-- Visit a list of nodes in order with the given node visitor
(`visitT` at the next smaller fuel). -/
def visitListWith (vis : TopoState → Nat → Option TopoState) :
    TopoState → List Nat → Option TopoState
  | st, [] => some st
  | st, j :: js =>
      match vis st j with
      | none => none
      | some st2 => visitListWith vis st2 js

/-- Visit one node: skip when done, flag a cycle when already on the
visiting stack, otherwise visit the children depth-first and append the
node to the output (postorder). -/
def visitT (ops : List Operation) : Nat → TopoState → Nat → Option TopoState
  | 0, _, _ => none
  | fuel + 1, st, i =>
      if i ∈ st.done then some st
      else if i ∈ st.visiting then some { st with cyc := true }
      else
        match visitListWith (visitT ops fuel) { st with visiting := i :: st.visiting }
            (childrenOf ops i) with
        | none => none
        | some st2 =>
            some { st2 with
              visiting := st2.visiting.erase i
              done := st2.done ++ [i] }

/-- `topologicalSort`: depth-first over the nodes in list order; a cycle
is the hard error `dependency cycle detected`.  The fuel bound
`length + 2` always suffices (recursion depth is bounded by the visiting
stack, which holds distinct nodes). -/
def topoSort (ops : List Operation) : Except Failure (List Operation) :=
  match visitListWith (visitT ops (ops.length + 2)) ⟨[], [], false⟩
      (List.range ops.length) with
  | none => .error .diverged
  | some st =>
      if st.cyc then .error (.errored ("dependency cycle detected"))
      else .ok (st.done.filterMap (fun i => ops.get? i))

/-- `sortOperations`: stable pre-sort by `(identifier, kind)`, partition
into adds/alters vs drops, topologically sort each partition, reverse
the drops, and emit reversed drops followed by adds/alters. -/
def sortOperations (ops : List Operation) : Except Failure (List Operation) :=
  let sorted := List.insertionSort opLE ops
  let addAlterOps := sorted.filter (fun o => o.kind ≠ .drop)
  let dropOps := sorted.filter (fun o => o.kind = .drop)
  match topoSort addAlterOps with
  | .error e => .error e
  | .ok sortedAddAlter =>
      match topoSort dropOps with
      | .error e => .error e
      | .ok sortedDrop => .ok (sortedDrop.reverse ++ sortedAddAlter)

/-! ## The full pipeline -/

/-- `diffDefinitions`: plan, flatten, order, and project the DDLs. -/
def diffDefinitions (fuel : Nat) (base target : Definitions)
    (pi_ : List (Identifier × Definition) → List (Identifier × Definition))
    (ordSyn : List String → List String) : Except Failure (List DDL) :=
  match planStates fuel base target pi_ ordSyn with
  | .error e => .error e
  | .ok m =>
      match flattenOps m with
      | .error e => .error e
      | .ok ops =>
          match sortOperations ops with
          | .error e => .error e
          | .ok sorted => .ok (sorted.map (·.ddl))

/-- Failures of the whole `Diff` entry point. -/
inductive DiffError
  | defs (e : DefsError)
  | run (f : Failure)
  deriving DecidableEq, Repr

/-- `Diff` (parsing and printing are external collaborators): build both
definition sets, then diff them; any definition-set error aborts with no
output. -/
def spannerDiff (baseDDLs targetDDLs : List DDL) (errorOnUnsupported : Bool)
    (fuel : Nat)
    (pi_ : List (Identifier × Definition) → List (Identifier × Definition))
    (ordSyn : List String → List String) : Except DiffError (List DDL) :=
  match newDefinitions baseDDLs errorOnUnsupported with
  | .error e => .error (.defs e)
  | .ok baseDefs =>
      match newDefinitions targetDDLs errorOnUnsupported with
      | .error e => .error (.defs e)
      | .ok targetDefs =>
          match diffDefinitions fuel baseDefs targetDefs pi_ ordSyn with
          | .error f => .error (.run f)
          | .ok ddls => .ok ddls

/-! # Lemmas and claim theorems -/

/-! ## Basic toolkit -/

instance {ε α : Type} [DecidableEq ε] [DecidableEq α] : DecidableEq (Except ε α) :=
  fun a b => by
    cases a <;> cases b
    case error.error x y =>
      exact decidable_of_iff (x = y)
        ⟨fun h => h ▸ rfl, fun h => Except.error.inj h⟩
    case ok.ok x y =>
      exact decidable_of_iff (x = y)
        ⟨fun h => h ▸ rfl, fun h => Except.ok.inj h⟩
    all_goals exact isFalse (by intro h; cases h)

theorem equalNode_refl (a : Node) : equalNode a a = true := by
  simp [equalNode]

theorem find_fst_isSome {α : Type} {l : List (Identifier × α)} {p : Identifier × α}
    (h : p ∈ l) : (l.find? (fun q => q.1 = p.1)).isSome := by
  induction l with
  | nil => cases h
  | cons q rest ih =>
      by_cases hq : q.1 = p.1
      · simp [List.find?_cons, hq]
      · rcases List.mem_cons.mp h with rfl | hmem
        · exact absurd rfl hq
        · simp only [List.find?_cons]
          rw [decide_eq_false hq]
          exact ih hmem

theorem find_fst_eq_of_nodup {α : Type} {l : List (Identifier × α)} {p : Identifier × α}
    (hnd : (l.map (·.1)).Nodup) (h : p ∈ l) :
    l.find? (fun q => q.1 = p.1) = some p := by
  induction l with
  | nil => cases h
  | cons q rest ih =>
      simp only [List.map_cons, List.nodup_cons] at hnd
      rcases List.mem_cons.mp h with rfl | hmem
      · simp [List.find?_cons]
      · have hne : q.1 ≠ p.1 := by
          intro he
          exact hnd.1 (he ▸ List.mem_map_of_mem (·.1) hmem)
        simp only [List.find?_cons]
        rw [decide_eq_false hne]
        exact ih hnd.2 hmem

theorem defsLookup_isSome_of_mem {d : Definitions} {p : Identifier × Definition}
    (h : p ∈ d.all) : (defsLookup d p.1).isSome := by
  unfold defsLookup
  cases hfind : d.all.find? (fun q => q.1 = p.1) with
  | none =>
      have := find_fst_isSome h
      rw [hfind] at this
      cases this
  | some q => rfl

theorem defsLookup_eq_of_mem_nodup {d : Definitions} {p : Identifier × Definition}
    (hnd : (d.all.map (·.1)).Nodup) (h : p ∈ d.all) :
    defsLookup d p.1 = some p.2 := by
  unfold defsLookup
  rw [find_fst_eq_of_nodup hnd h]
  rfl

/-- Every state stored by `newMigration` is `Undefined`. -/
theorem setState_pred {P : MigrationState → Prop} {m : Migration} {s : MigrationState}
    (hm : ∀ p ∈ m.states, P p.2) (hs : P s) :
    ∀ p ∈ (m.setState s).states, P p.2 := by
  intro p hp
  unfold Migration.setState at hp
  by_cases hc : m.states.any (fun q => q.1 = s.id)
  · rw [if_pos hc] at hp
    simp only [List.mem_map] at hp
    obtain ⟨q, hq, he⟩ := hp
    by_cases hqe : q.1 = s.id
    · rw [if_pos hqe] at he
      exact he ▸ hs
    · rw [if_neg hqe] at he
      exact he ▸ hm q hq
  · rw [if_neg hc] at hp
    rcases List.mem_append.mp hp with hmem | hmem
    · exact hm p hmem
    · rcases List.mem_singleton.mp hmem with rfl
      exact hs

theorem initializeState_pred {P : MigrationState → Prop} {m : Migration}
    {b t : Option Definition} (hm : ∀ p ∈ m.states, P p.2)
    (hP : ∀ id b2 t2, P (newMigrationState id b2 t2 .undefined)) :
    ∀ p ∈ (m.initializeState b t).states, P p.2 := by
  unfold Migration.initializeState
  cases t with
  | some td => exact setState_pred hm (hP _ _ _)
  | none =>
      cases b with
      | some bd => exact setState_pred hm (hP _ _ _)
      | none => exact hm

theorem newMigration_undefined (base target : Definitions) :
    ∀ p ∈ (newMigration base target).states, p.2.kind = .undefined := by
  unfold newMigration
  have step2 :
      ∀ (l : List (Identifier × Definition)) (m : Migration),
        (∀ p ∈ m.states, p.2.kind = .undefined) →
        ∀ p ∈ (l.foldl (fun m p => m.initializeState (defsLookup base p.1) (some p.2)) m).states,
          p.2.kind = .undefined := by
    intro l
    induction l with
    | nil => intro m hm; exact hm
    | cons q rest ih =>
        intro m hm
        exact ih _
          (initializeState_pred (P := fun s => s.kind = .undefined) hm (fun _ _ _ => rfl))
  have step1 :
      ∀ (l : List (Identifier × Definition)) (m : Migration),
        (∀ p ∈ m.states, p.2.kind = .undefined) →
        ∀ p ∈ (l.foldl (fun m p => m.initializeState (some p.2) (defsLookup target p.1)) m).states,
          p.2.kind = .undefined := by
    intro l
    induction l with
    | nil => intro m hm; exact hm
    | cons q rest ih =>
        intro m hm
        exact ih _
          (initializeState_pred (P := fun s => s.kind = .undefined) hm (fun _ _ _ => rfl))
  exact step2 _ _ (step1 _ ⟨[], []⟩ (by intro p hp; cases hp))

theorem kindOf_undefined {m : Migration}
    (hm : ∀ p ∈ m.states, p.2.kind = .undefined) (id : Identifier) :
    m.kindOf id = .undefined := by
  unfold Migration.kindOf Migration.stateOf
  cases hfind : m.states.find? (fun p => p.1 = id) with
  | none => rfl
  | some p => exact hm p (List.mem_of_find?_eq_some hfind)

/-! ## Topological sort: permutation and ordering invariants -/

theorem lastIdxOf_aux_spec {ops : List Operation} {dep : Identifier} :
    ∀ (l : List Nat) (acc : Option Nat),
      (∀ k, acc = some k → k < ops.length ∧ (ops.getD k default).id = dep) →
      (∀ j ∈ l, j < ops.length) →
      ∀ k, l.foldl (fun acc j => if (ops.getD j default).id = dep then some j else acc) acc
            = some k →
        k < ops.length ∧ (ops.getD k default).id = dep := by
  intro l
  induction l with
  | nil => intro acc hacc _ k h; exact hacc k h
  | cons j rest ih =>
      intro acc hacc hl k h
      simp only [List.foldl_cons] at h
      by_cases hj : (ops.getD j default).id = dep
      · rw [if_pos hj] at h
        refine ih (some j) ?_ (fun x hx => hl x (List.mem_cons_of_mem j hx)) k h
        intro x hx
        cases Option.some.inj hx
        exact ⟨hl j (List.mem_cons_self j rest), hj⟩
      · rw [if_neg hj] at h
        exact ih acc hacc (fun x hx => hl x (List.mem_cons_of_mem j hx)) k h

theorem lastIdxOf_spec {ops : List Operation} {dep : Identifier} {k : Nat}
    (h : lastIdxOf ops dep = some k) :
    k < ops.length ∧ (ops.getD k default).id = dep := by
  unfold lastIdxOf at h
  exact lastIdxOf_aux_spec (List.range ops.length) none
    (by intro x hx; cases hx)
    (by intro j hj; exact List.mem_range.mp hj) k h

theorem lastIdxOf_aux_isSome {ops : List Operation} {dep : Identifier} :
    ∀ (l : List Nat) (acc : Option Nat),
      (acc.isSome ∨ ∃ j ∈ l, (ops.getD j default).id = dep) →
      (l.foldl (fun acc j => if (ops.getD j default).id = dep then some j else acc) acc).isSome := by
  intro l
  induction l with
  | nil =>
      intro acc h
      rcases h with h | ⟨j, hj, _⟩
      · exact h
      · cases hj
  | cons j rest ih =>
      intro acc h
      simp only [List.foldl_cons]
      by_cases hj : (ops.getD j default).id = dep
      · rw [if_pos hj]
        exact ih _ (Or.inl rfl)
      · rw [if_neg hj]
        refine ih _ ?_
        rcases h with h | ⟨x, hx, hxid⟩
        · exact Or.inl h
        · rcases List.mem_cons.mp hx with rfl | hmem
          · exact absurd hxid hj
          · exact Or.inr ⟨x, hmem, hxid⟩

theorem lastIdxOf_isSome {ops : List Operation} {dep : Identifier} {j : Nat}
    (hj : j < ops.length) (hid : (ops.getD j default).id = dep) :
    (lastIdxOf ops dep).isSome := by
  unfold lastIdxOf
  exact lastIdxOf_aux_isSome _ none (Or.inr ⟨j, List.mem_range.mpr hj, hid⟩)

theorem childrenOf_lt {ops : List Operation} {i j : Nat}
    (h : j ∈ childrenOf ops i) : j < ops.length := by
  unfold childrenOf at h
  obtain ⟨dep, _, hlast⟩ := List.mem_filterMap.mp h
  exact (lastIdxOf_spec hlast).1

/-- Indices of operations with distinct identifiers are distinct: with a
nodup identifier list, `getD` is injective on indices. -/
theorem idx_eq_of_id_eq {ops : List Operation}
    (hnd : (ops.map (·.id)).Nodup) {j k : Nat}
    (hj : j < ops.length) (hk : k < ops.length)
    (h : (ops.getD j default).id = (ops.getD k default).id) : j = k := by
  have hjl : j < (ops.map (·.id)).length := by simpa using hj
  have hkl : k < (ops.map (·.id)).length := by simpa using hk
  have hmap : (ops.map (·.id)).get ⟨j, hjl⟩ = (ops.map (·.id)).get ⟨k, hkl⟩ := by
    simp only [List.get_map]
    have h1 : ops.getD j default = ops.get ⟨j, hj⟩ := List.getD_eq_get ops default hj
    have h2 : ops.getD k default = ops.get ⟨k, hk⟩ := List.getD_eq_get ops default hk
    rw [h1, h2] at h
    exact h
  have := List.Nodup.get_inj_iff hnd |>.mp hmap
  exact Fin.mk.inj_iff.mp this

/-- With nodup identifiers, an operation's index is a child of every
index whose operation depends on its identifier. -/
theorem mem_childrenOf_of_dep {ops : List Operation}
    (hnd : (ops.map (·.id)).Nodup) {i j : Nat}
    (hj : j < ops.length)
    (hdep : (ops.getD j default).id ∈ (ops.getD i default).dependsOn) :
    j ∈ childrenOf ops i := by
  unfold childrenOf
  refine List.mem_filterMap.mpr ⟨(ops.getD j default).id, hdep, ?_⟩
  have hsome := lastIdxOf_isSome hj rfl
  cases hlast : lastIdxOf ops ((ops.getD j default).id) with
  | none => rw [hlast] at hsome; cases hsome
  | some k =>
      obtain ⟨hk, hkid⟩ := lastIdxOf_spec hlast
      have : k = j := idx_eq_of_id_eq hnd hk hj hkid
      exact congrArg some this

/-- The basic shape invariant of one `visitT` call. -/
def VisitTShape (ops : List Operation) (st : TopoState) (i : Nat) (st2 : TopoState) : Prop :=
  st2.visiting = st.visiting ∧
  (∃ ks, st2.done = st.done ++ ks) ∧
  (∀ k ∈ st2.done, k ∈ st.done ∨
    (k ∉ st.visiting ∧ k ∉ st.done ∧ (k = i ∨ k < ops.length))) ∧
  (st.done.Nodup → st2.done.Nodup) ∧
  (st2.cyc = false → st.cyc = false) ∧
  (i ∈ st2.done ∨ i ∈ st.visiting)

/-- The basic shape invariant of one `visitListWith` run. -/
def VisitLShape (ops : List Operation) (st : TopoState) (js : List Nat) (st2 : TopoState) : Prop :=
  st2.visiting = st.visiting ∧
  (∃ ks, st2.done = st.done ++ ks) ∧
  (∀ k ∈ st2.done, k ∈ st.done ∨
    (k ∉ st.visiting ∧ k ∉ st.done ∧ (k ∈ js ∨ k < ops.length))) ∧
  (st.done.Nodup → st2.done.Nodup) ∧
  (st2.cyc = false → st.cyc = false) ∧
  (∀ j ∈ js, j ∈ st2.done ∨ j ∈ st.visiting)

theorem visitL_shape_of_visitT {ops : List Operation} {f : Nat}
    (hT : ∀ st i st2, visitT ops f st i = some st2 → VisitTShape ops st i st2) :
    ∀ js st st2, visitListWith (visitT ops f) st js = some st2 →
      VisitLShape ops st js st2 := by
  intro js
  induction js with
  | nil =>
      intro st st2 h
      cases Option.some.inj h
      exact ⟨rfl, ⟨[], by simp⟩, fun k hk => Or.inl hk, fun h => h, fun h => h,
        fun j hj => absurd hj (List.not_mem_nil j)⟩
  | cons j rest ih =>
      intro st st2 h
      unfold visitListWith at h
      cases hv : visitT ops f st j with
      | none => rw [hv] at h; cases h
      | some stm =>
          rw [hv] at h
          obtain ⟨v1, ⟨ks1, d1⟩, m1, n1, c1, e1⟩ := hT st j stm hv
          obtain ⟨v2, ⟨ks2, d2⟩, m2, n2, c2, e2⟩ := ih stm st2 h
          refine ⟨v2.trans v1, ⟨ks1 ++ ks2, by rw [d2, d1, List.append_assoc]⟩,
            ?_, fun hnd => n2 (n1 hnd), fun hc => c1 (c2 hc), ?_⟩
          · intro k hk
            rcases m2 k hk with hk2 | ⟨hkv, hkd, hko⟩
            · rcases m1 k hk2 with hk1 | ⟨hkv1, hkd1, hko1⟩
              · exact Or.inl hk1
              · refine Or.inr ⟨hkv1, hkd1, ?_⟩
                rcases hko1 with rfl | hlt
                · exact Or.inl (List.mem_cons_self k rest)
                · exact Or.inr hlt
            · rw [v1] at hkv
              refine Or.inr ⟨hkv, fun hkd1 => hkd (by rw [d1]; exact List.mem_append_left _ hkd1), ?_⟩
              rcases hko with hmem | hlt
              · exact Or.inl (List.mem_cons_of_mem j hmem)
              · exact Or.inr hlt
          · intro x hx
            rcases List.mem_cons.mp hx with rfl | hmem
            · rcases e1 with hd | hv1
              · exact Or.inl (by rw [d2]; exact List.mem_append_left _ hd)
              · exact Or.inr hv1
            · rcases e2 x hmem with hd | hv2
              · exact Or.inl hd
              · rw [v1] at hv2
                exact Or.inr hv2

theorem visitT_shape {ops : List Operation} :
    ∀ (f : Nat) st i st2, visitT ops f st i = some st2 → VisitTShape ops st i st2 := by
  intro f
  induction f with
  | zero => intro st i st2 h; cases h
  | succ f ih =>
      intro st i st2 h
      unfold visitT at h
      by_cases hdone : i ∈ st.done
      · rw [if_pos hdone] at h
        cases Option.some.inj h
        exact ⟨rfl, ⟨[], by simp⟩, fun k hk => Or.inl hk, fun h => h, fun h => h,
          Or.inl hdone⟩
      · rw [if_neg hdone] at h
        by_cases hvis : i ∈ st.visiting
        · rw [if_pos hvis] at h
          cases Option.some.inj h
          exact ⟨rfl, ⟨[], by simp⟩, fun k hk => Or.inl hk, fun h => h,
            fun h => by simp at h, Or.inr hvis⟩
        · rw [if_neg hvis] at h
          cases hrun : visitListWith (visitT ops f)
              { st with visiting := i :: st.visiting } (childrenOf ops i) with
          | none => rw [hrun] at h; cases h
          | some stm =>
              rw [hrun] at h
              cases Option.some.inj h
              obtain ⟨v2, ⟨ks, d2⟩, m2, n2, c2, _⟩ :=
                visitL_shape_of_visitT ih (childrenOf ops i) _ stm hrun
              have hinotdone : i ∉ stm.done := by
                intro hmem
                rcases m2 i hmem with hd | ⟨hv, _, _⟩
                · exact hdone hd
                · exact hv (List.mem_cons_self i st.visiting)
              refine ⟨?_, ⟨ks ++ [i], by rw [d2]; simp⟩, ?_, ?_, fun hc => c2 hc, ?_⟩
              · show stm.visiting.erase i = st.visiting
                rw [v2]
                exact List.erase_cons_head i st.visiting
              · intro k hk
                rcases List.mem_append.mp hk with hk2 | hk2
                · rcases m2 k hk2 with hd | ⟨hv, hd, hko⟩
                  · exact Or.inl hd
                  · refine Or.inr ⟨fun hsv => hv (List.mem_cons_of_mem i hsv), hd, ?_⟩
                    rcases hko with hch | hlt
                    · exact Or.inr (childrenOf_lt hch)
                    · exact Or.inr hlt
                · rcases List.mem_singleton.mp hk2 with rfl
                  exact Or.inr ⟨hvis, hdone, Or.inl rfl⟩
              · intro hnd
                have : stm.done.Nodup := n2 hnd
                simpa [List.nodup_append, hinotdone] using this
              · exact Or.inl (List.mem_append_right _ (List.mem_singleton.mpr rfl))

/-- The ordering invariant of the DFS: every completed node's children
are completed earlier. -/
def DoneGood (ops : List Operation) (st : TopoState) : Prop :=
  ∀ a ∈ st.done, ∀ j ∈ childrenOf ops a,
    j ∈ st.done ∧ st.done.indexOf j < st.done.indexOf a

theorem indexOf_concat_self {l : List Nat} {i : Nat} (h : i ∉ l) :
    (l ++ [i]).indexOf i = l.length := by
  induction l with
  | nil => simp [List.indexOf_cons_self]
  | cons a rest ih =>
      have hne : a ≠ i := fun he => h (he ▸ List.mem_cons_self a rest)
      have : i ∉ rest := fun hm => h (List.mem_cons_of_mem a hm)
      simp only [List.cons_append, List.indexOf_cons_ne _ (by exact hne), List.length_cons]
      rw [ih this]

theorem visitL_order {ops : List Operation} {f : Nat}
    (hT : ∀ st i st2, visitT ops f st i = some st2 → st2.cyc = false →
      st.done.Nodup → DoneGood ops st → DoneGood ops st2) :
    ∀ js st st2, visitListWith (visitT ops f) st js = some st2 → st2.cyc = false →
      st.done.Nodup → DoneGood ops st →
      DoneGood ops st2 ∧ ∀ j ∈ js, j ∈ st2.done := by
  intro js
  induction js with
  | nil =>
      intro st st2 h hc hnd hg
      cases Option.some.inj h
      exact ⟨hg, fun j hj => absurd hj (List.not_mem_nil j)⟩
  | cons j rest ih =>
      intro st st2 h hc hnd hg
      unfold visitListWith at h
      cases hv : visitT ops f st j with
      | none => rw [hv] at h; cases h
      | some stm =>
          rw [hv] at h
          obtain ⟨_, ⟨ks2, d2⟩, _, _, c2, _⟩ :=
            visitL_shape_of_visitT (fun st i st2 h => visitT_shape f st i st2 h) rest stm st2 h
          have hcm : stm.cyc = false := c2 hc
          obtain ⟨v1, ⟨ks1, d1⟩, _, n1, _, e1⟩ := visitT_shape f st j stm hv
          have hgm : DoneGood ops stm := hT st j stm hv hcm hnd hg
          obtain ⟨hg2, hrest⟩ := ih stm st2 h hc (n1 hnd) hgm
          refine ⟨hg2, ?_⟩
          intro x hx
          rcases List.mem_cons.mp hx with rfl | hmem
          · rcases e1 with hd | hv1
            · rw [d2]; exact List.mem_append_left _ hd
            · by_cases hxd : x ∈ st.done
              · rw [d2, d1]
                exact List.mem_append_left _ (List.mem_append_left _ hxd)
              · exfalso
                cases f with
                | zero => unfold visitT at hv; cases hv
                | succ f2 =>
                    unfold visitT at hv
                    rw [if_neg hxd, if_pos hv1] at hv
                    cases Option.some.inj hv
                    simp at hcm
          · exact hrest x hmem

theorem visitT_order {ops : List Operation} :
    ∀ (f : Nat) st i st2, visitT ops f st i = some st2 → st2.cyc = false →
      st.done.Nodup → DoneGood ops st → DoneGood ops st2 := by
  intro f
  induction f with
  | zero => intro st i st2 h; cases h
  | succ f ih =>
      intro st i st2 h hc hnd hg
      unfold visitT at h
      by_cases hdone : i ∈ st.done
      · rw [if_pos hdone] at h
        cases Option.some.inj h
        exact hg
      · rw [if_neg hdone] at h
        by_cases hvis : i ∈ st.visiting
        · rw [if_pos hvis] at h
          cases Option.some.inj h
          cases hc
        · rw [if_neg hvis] at h
          cases hrun : visitListWith (visitT ops f)
              { st with visiting := i :: st.visiting } (childrenOf ops i) with
          | none => rw [hrun] at h; cases h
          | some stm =>
              rw [hrun] at h
              cases Option.some.inj h
              have hcm : stm.cyc = false := hc
              obtain ⟨hgm, hchildren⟩ :=
                visitL_order ih (childrenOf ops i) _ stm hrun hcm hnd hg
              obtain ⟨_, ⟨ks, d2⟩, m2, n2, _, _⟩ :=
                visitL_shape_of_visitT (fun st i st2 h => visitT_shape f st i st2 h)
                  (childrenOf ops i) _ stm hrun
              have hinotdone : i ∉ stm.done := by
                intro hmem
                rcases m2 i hmem with hd | ⟨hv, _, _⟩
                · exact hdone hd
                · exact hv (List.mem_cons_self i st.visiting)
              intro a ha j hj
              rcases List.mem_append.mp ha with ham | ham
              · obtain ⟨hjm, hlt⟩ := hgm a ham j hj
                refine ⟨List.mem_append_left _ hjm, ?_⟩
                rw [List.indexOf_append_of_mem hjm, List.indexOf_append_of_mem ham]
                exact hlt
              · rcases List.mem_singleton.mp ham with rfl
                have hjm : j ∈ stm.done := hchildren j hj
                refine ⟨List.mem_append_left _ hjm, ?_⟩
                rw [List.indexOf_append_of_mem hjm, indexOf_concat_self hinotdone]
                exact List.indexOf_lt_length.mpr hjm

/-- The combined result of a successful `topoSort` run: the output is
the node list in completion order, complete (even on cyclic inputs the
DFS completes every node), duplicate-free, and — when no cycle was
flagged — topologically ordered (children complete first). -/
theorem topoSort_spec {ops res : List Operation}
    (h : topoSort ops = .ok res) :
    ∃ doneL : List Nat,
      doneL.Nodup ∧ (∀ k ∈ doneL, k < ops.length) ∧
      (∀ j, j < ops.length → j ∈ doneL) ∧
      res = doneL.filterMap (fun i => ops.get? i) ∧
      (∀ a ∈ doneL, ∀ j ∈ childrenOf ops a,
        j ∈ doneL ∧ doneL.indexOf j < doneL.indexOf a) := by
  unfold topoSort at h
  cases hrun : visitListWith (visitT ops (ops.length + 2)) ⟨[], [], false⟩
      (List.range ops.length) with
  | none => rw [hrun] at h; cases h
  | some st =>
      rw [hrun] at h
      dsimp only at h
      by_cases hcyc : st.cyc = true
      · rw [if_pos hcyc] at h; cases h
      · rw [if_neg hcyc] at h
        have hres := Except.ok.inj h
        obtain ⟨_, _, m2, n2, _, e2⟩ :=
          visitL_shape_of_visitT
            (fun st i st2 hx => visitT_shape (ops.length + 2) st i st2 hx)
            (List.range ops.length) _ st hrun
        have hcf : st.cyc = false := by
          cases hcv : st.cyc
          · rfl
          · exact absurd hcv hcyc
        obtain ⟨hgood, _⟩ :=
          visitL_order (fun st i st2 hx => visitT_order (ops.length + 2) st i st2 hx)
            (List.range ops.length) _ st hrun hcf (by exact List.nodup_nil)
            (by intro a ha j hj; cases ha)
        refine ⟨st.done, n2 List.nodup_nil, ?_, ?_, hres.symm, hgood⟩
        · intro k hk
          rcases m2 k hk with hd | ⟨_, _, hko⟩
          · cases hd
          · rcases hko with hmem | hlt
            · exact List.mem_range.mp hmem
            · exact hlt
        · intro j hj
          rcases e2 j (List.mem_range.mpr hj) with hd | hv
          · exact hd
          · cases hv

theorem filterMap_get_range :
    ∀ (l : List Operation), (List.range l.length).filterMap (fun i => l.get? i) = l := by
  intro l
  induction l with
  | nil => rfl
  | cons a rest ih =>
      rw [List.length_cons, List.range_succ_eq_map, List.filterMap_cons]
      simp only [List.get?_cons_zero, List.filterMap_map]
      have : (fun i => (a :: rest).get? (Nat.succ i)) = fun i => rest.get? i := by
        funext i
        rfl
      rw [show ((fun i => List.get? (a :: rest) i) ∘ Nat.succ) = fun i => rest.get? i from this]
      rw [ih]

/-- A successful topological sort is a permutation of its input. -/
theorem topoSort_perm {ops res : List Operation}
    (h : topoSort ops = .ok res) : res.Perm ops := by
  obtain ⟨doneL, hnd, hlt, hall, hres, _⟩ := topoSort_spec h
  have hperm : doneL.Perm (List.range ops.length) := by
    refine (List.perm_ext_iff_of_nodup hnd (List.nodup_range _)).mpr ?_
    intro a
    constructor
    · intro ha; exact List.mem_range.mpr (hlt a ha)
    · intro ha; exact hall a (List.mem_range.mp ha)
  rw [hres]
  have hfm := hperm.filterMap (fun i => ops.get? i)
  rwa [filterMap_get_range ops] at hfm

/-! ## Claim C10: `sortOperations` permutes its input -/

/-- When `sortOperations` succeeds, its result is a permutation of its
input (shared kernel of the C4 and C10 theorems). -/
theorem sortOperations_perm (ops res : List Operation)
    (h : sortOperations ops = .ok res) : res.Perm ops := by
  unfold sortOperations at h
  dsimp only at h
  cases h1 : topoSort ((List.insertionSort opLE ops).filter (fun o => o.kind ≠ .drop)) with
  | error e => rw [h1] at h; cases h
  | ok sortedAddAlter =>
      rw [h1] at h
      cases h2 : topoSort ((List.insertionSort opLE ops).filter (fun o => o.kind = .drop)) with
      | error e => rw [h2] at h; cases h
      | ok sortedDrop =>
          rw [h2] at h
          have hres := Except.ok.inj h
          have pA := topoSort_perm h1
          have pD := topoSort_perm h2
          have hfilters :
              ((List.insertionSort opLE ops).filter (fun o => o.kind = .drop) ++
                (List.insertionSort opLE ops).filter (fun o => o.kind ≠ .drop)).Perm
                (List.insertionSort opLE ops) := by
            have hbase := List.filter_append_perm
              (fun o => decide (o.kind = OperationKind.drop)) (List.insertionSort opLE ops)
            have hcong :
                (List.insertionSort opLE ops).filter
                    (fun o => !decide (o.kind = OperationKind.drop)) =
                (List.insertionSort opLE ops).filter (fun o => o.kind ≠ .drop) := by
              apply List.filter_congr
              intro o _
              simp
            rw [hcong] at hbase
            exact hbase
          rw [← hres]
          refine ((List.reverse_perm sortedDrop).append_right sortedAddAlter).trans ?_
          refine (pD.append pA).trans ?_
          exact hfilters.trans (List.perm_insertionSort opLE ops)

/-- C10 — When `sortOperations` succeeds, its result is a permutation of
its input: every operation passed in appears exactly once in the
returned sequence and no operation is invented, so the ordering phase
never adds, drops, or duplicates any migration DDL. -/
theorem claim_C10_sort_permutation (ops res : List Operation)
    (h : sortOperations ops = .ok res) : res.Perm ops :=
  sortOperations_perm ops res h

/-- Witness for C10 at a concrete input with one drop and one add. -/
theorem claim_C10_witness :
    ([⟨.tableID none "A", .drop, .dropTable ⟨none, "A"⟩, []⟩,
      ⟨.tableID none "B", .add, .createTable ⟨⟨none, "B"⟩, [], [], [], [], none, ""⟩, []⟩] :
        List Operation).Perm
      [⟨.tableID none "A", .drop, .dropTable ⟨none, "A"⟩, []⟩,
       ⟨.tableID none "B", .add, .createTable ⟨⟨none, "B"⟩, [], [], [], [], none, ""⟩, []⟩] :=
  claim_C10_sort_permutation
    [⟨.tableID none "A", .drop, .dropTable ⟨none, "A"⟩, []⟩,
     ⟨.tableID none "B", .add, .createTable ⟨⟨none, "B"⟩, [], [], [], [], none, ""⟩, []⟩]
    [⟨.tableID none "A", .drop, .dropTable ⟨none, "A"⟩, []⟩,
     ⟨.tableID none "B", .add, .createTable ⟨⟨none, "B"⟩, [], [], [], [], none, ""⟩, []⟩]
    (by decide)

/-! ## Well-formedness invariants of the planner state

These bookkeeping invariants relate stored states to their map keys:
definitions are stored under their own identifier, a state's definitions
carry the state's identifier, and attached operations (the change-stream
`FOR` toggling pair) carry the owning identifier with one drop-kind and
one add-kind operation. -/

/-- A grant definition's stored identifier is a grant identifier (true
of every definition `newGrant` builds). -/
def DefnOK : Definition → Prop
  | .grant _ gid => ∃ r t, gid = .grantID r t
  | _ => True

/-- Attached operations are absent or the change-stream pair. -/
def AttachedProper (id : Identifier) (ops : List Operation) : Prop :=
  ops = [] ∨ ∃ o1 o2, ops = [o1, o2] ∧ o1.id = id ∧ o2.id = id ∧
    o1.kind = .drop ∧ o2.kind = .add ∧ o1.dependsOn = o2.dependsOn

/-- Well-formedness of one stored state entry. -/
def StWF (p : Identifier × MigrationState) : Prop :=
  p.2.id = p.1 ∧
  (∀ d, p.2.base = some d → d.id = p.1 ∧ DefnOK d) ∧
  (∀ d, p.2.target = some d → d.id = p.1 ∧ DefnOK d) ∧
  AttachedProper p.1 p.2.attachedOps

/-- Well-formedness of a free-standing state. -/
def StateOK (s : MigrationState) : Prop := StWF (s.id, s)

/-- Well-formedness of the whole planner: every entry is well-formed and
keys are unique. -/
def MigWF (m : Migration) : Prop :=
  (∀ p ∈ m.states, StWF p) ∧ (m.states.map (·.1)).Nodup

/-- Well-formedness of a definition set: entries are keyed by their own
identifier and grant identifiers are grant-shaped. -/
def DefsWF (d : Definitions) : Prop :=
  (∀ p ∈ d.all, p.2.id = p.1 ∧ DefnOK p.2) ∧ (d.all.map (·.1)).Nodup

theorem setState_WF {m : Migration} {s : MigrationState}
    (hm : MigWF m) (hs : StateOK s) : MigWF (m.setState s) := by
  obtain ⟨hst, hnd⟩ := hm
  constructor
  · intro p hp
    unfold Migration.setState at hp
    by_cases hc : m.states.any (fun q => q.1 = s.id)
    · rw [if_pos hc] at hp
      obtain ⟨q, hq, he⟩ := List.mem_map.mp hp
      by_cases hqe : q.1 = s.id
      · rw [if_pos hqe] at he
        subst he
        obtain ⟨h1, h2, h3, h4⟩ := hs
        exact ⟨by rw [h1, hqe], by rw [hqe]; exact h2, by rw [hqe]; exact h3,
          by rw [hqe]; exact h4⟩
      · rw [if_neg hqe] at he
        exact he ▸ hst q hq
    · rw [if_neg hc] at hp
      rcases List.mem_append.mp hp with hmem | hmem
      · exact hst p hmem
      · rcases List.mem_singleton.mp hmem with rfl
        exact hs
  · unfold Migration.setState
    by_cases hc : m.states.any (fun q => q.1 = s.id)
    · rw [if_pos hc]
      have : (m.states.map (fun p => if p.1 = s.id then (p.1, s) else p)).map (·.1) =
          m.states.map (·.1) := by
        rw [List.map_map]
        apply List.map_congr_left
        intro p _
        by_cases hh : p.1 = s.id
        · simp [hh]
        · simp [hh]
      rw [this]
      exact hnd
    · rw [if_neg hc]
      rw [List.map_append]
      refine List.Nodup.append hnd (by simp) ?_
      intro x hx hy
      rcases List.mem_singleton.mp (by simpa using hy) with rfl
      obtain ⟨q, hq, hqe⟩ := List.mem_map.mp hx
      rw [List.any_eq_true] at hc
      exact hc ⟨q, hq, by simp [hqe]⟩

theorem stateOf_WF {m : Migration} (hm : MigWF m) (id : Identifier) :
    StateOK (m.stateOf id) ∧ (m.stateOf id).id = id := by
  cases hfind : m.states.find? (fun p => p.1 = id) with
  | none =>
      have hv : m.stateOf id = newMigrationState id none none .undefined := by
        unfold Migration.stateOf; rw [hfind]
      rw [hv]
      refine ⟨⟨rfl, ?_, ?_, Or.inl rfl⟩, rfl⟩
      · intro d hd; cases hd
      · intro d hd; cases hd
  | some p =>
      have hv : m.stateOf id = p.2 := by
        unfold Migration.stateOf; rw [hfind]
      have hmem := List.mem_of_find?_eq_some hfind
      have hpred := List.find?_some hfind
      have hkey : p.1 = id := by simpa using hpred
      obtain ⟨h1, h2, h3, h4⟩ := hm.1 p hmem
      rw [hv]
      refine ⟨⟨rfl, ?_, ?_, ?_⟩, by rw [h1, hkey]⟩
      · intro d hd
        obtain ⟨hd1, hd2⟩ := h2 d hd
        exact ⟨by rw [hd1, h1], hd2⟩
      · intro d hd
        obtain ⟨hd1, hd2⟩ := h3 d hd
        exact ⟨by rw [hd1, h1], hd2⟩
      · rw [← h1] at h4; exact h4

theorem depChangeAction_attached {r : Definition} {dep : MigrationState}
    {k : MigrationKind} {ops : List Operation}
    (h : depChangeAction r dep = .ok (some (k, ops))) :
    AttachedProper r.id ops := by
  cases r <;> unfold depChangeAction at h <;> (try dsimp only [] at h) <;>
    (repeat' split at h) <;> cases h <;>
    first
      | exact Or.inl rfl
      | exact Or.inr ⟨_, _, rfl, rfl, rfl, rfl, rfl, rfl⟩

/-! ## Claim C3: idempotence -/

/-- Diffing a definition set against itself performs no state update. -/
theorem dropsLoop_self {fuel : Nat} {d : Definitions} {m : Migration} :
    ∀ l : List (Identifier × Definition), (∀ p ∈ l, p ∈ d.all) →
      dropsLoop fuel d m l = .ok m := by
  intro l
  induction l with
  | nil => intro _; rfl
  | cons q rest ih =>
      intro h
      unfold dropsLoop
      rw [if_pos (defsLookup_isSome_of_mem (h q (List.mem_cons_self q rest)))]
      exact ih (fun p hp => h p (List.mem_cons_of_mem q hp))

theorem altersLoop_self {fuel : Nat} {d : Definitions} {m : Migration}
    {ordSyn : List String → List String}
    (hnd : (d.all.map (·.1)).Nodup) :
    ∀ l : List (Identifier × Definition), (∀ p ∈ l, p ∈ d.all) →
      altersLoop fuel d ordSyn m l = .ok m := by
  intro l
  induction l with
  | nil => intro _; rfl
  | cons q rest ih =>
      intro h
      unfold altersLoop
      rw [defsLookup_eq_of_mem_nodup hnd (h q (List.mem_cons_self q rest))]
      simp only [equalNode_refl]
      exact ih (fun p hp => h p (List.mem_cons_of_mem q hp))

theorem addsLoop_self {fuel : Nat} {d : Definitions} {m : Migration} :
    ∀ l : List (Identifier × Definition), (∀ p ∈ l, p ∈ d.all) →
      addsLoop fuel d m l = .ok m := by
  intro l
  induction l with
  | nil => intro _; rfl
  | cons q rest ih =>
      intro h
      unfold addsLoop
      rw [if_pos (defsLookup_isSome_of_mem (h q (List.mem_cons_self q rest)))]
      exact ih (fun p hp => h p (List.mem_cons_of_mem q hp))

theorem stateOperations_undefined {ms : MigrationState}
    (h : ms.kind = .undefined) : stateOperations ms = .ok [] := by
  unfold stateOperations
  rw [h]

theorem flattenLoop_undefined :
    ∀ l : List (Identifier × MigrationState),
      (∀ p ∈ l, p.2.kind = .undefined) → flattenLoop l = .ok [] := by
  intro l
  induction l with
  | nil => intro _; rfl
  | cons q rest ih =>
      intro h
      unfold flattenLoop
      rw [stateOperations_undefined (h q (List.mem_cons_self q rest))]
      rw [ih (fun p hp => h p (List.mem_cons_of_mem q hp))]
      rfl

/-- C3 — For every input schema `x`, diffing `x` against itself emits no
statements: every identifier present on both sides with structurally
equal ASTs is left in the `Undefined` state and contributes no
operation, so the output is empty.  Quantified over the fuel, the
map-iteration order `pi` of the alters pass (restricted to reorderings
of the definition entries) and the synonym iteration order. -/
theorem claim_C3_idempotence (d : Definitions) (fuel : Nat)
    (pi_ : List (Identifier × Definition) → List (Identifier × Definition))
    (ordSyn : List String → List String)
    (hnd : (d.all.map (·.1)).Nodup)
    (hpi : ∀ p ∈ pi_ d.all, p ∈ d.all) :
    diffDefinitions fuel d d pi_ ordSyn = .ok [] := by
  have hm0 := newMigration_undefined d d
  unfold diffDefinitions planStates
  unfold dropsPhase altersPhase addsPhase flattenOps
  simp only [dropsLoop_self d.all (fun p hp => hp),
    altersLoop_self hnd (pi_ d.all) hpi,
    addsLoop_self d.all (fun p hp => hp),
    flattenLoop_undefined _ hm0]
  rfl

/-! ## No-update loop lemmas -/

/-- `migration.drops` skips every base entry whose identifier also
appears in the target. -/
theorem dropsLoop_found {fuel : Nat} {target : Definitions} {m : Migration} :
    ∀ l : List (Identifier × Definition),
      (∀ p ∈ l, (defsLookup target p.1).isSome) →
      dropsLoop fuel target m l = .ok m := by
  intro l
  induction l with
  | nil => intro _; rfl
  | cons q rest ih =>
      intro h
      unfold dropsLoop
      rw [if_pos (h q (List.mem_cons_self q rest))]
      exact ih (fun p hp => h p (List.mem_cons_of_mem q hp))

/-- `migration.adds` skips every target entry whose identifier also
appears in the base. -/
theorem addsLoop_found {fuel : Nat} {base : Definitions} {m : Migration} :
    ∀ l : List (Identifier × Definition),
      (∀ p ∈ l, (defsLookup base p.1).isSome) →
      addsLoop fuel base m l = .ok m := by
  intro l
  induction l with
  | nil => intro _; rfl
  | cons q rest ih =>
      intro h
      unfold addsLoop
      rw [if_pos (h q (List.mem_cons_self q rest))]
      exact ih (fun p hp => h p (List.mem_cons_of_mem q hp))

/-- `migration.alters` performs no update on entries that are absent
from the base or whose base AST is structurally equal. -/
theorem altersLoop_skip {fuel : Nat} {base : Definitions} {m : Migration}
    {ordSyn : List String → List String} :
    ∀ l : List (Identifier × Definition),
      (∀ p ∈ l, (match defsLookup base p.1 with
                 | some bdef => equalNode bdef.astNode p.2.astNode
                 | none => true) = true) →
      altersLoop fuel base ordSyn m l = .ok m := by
  intro l
  induction l with
  | nil => intro _; rfl
  | cons q rest ih =>
      intro h
      have hq := h q (List.mem_cons_self q rest)
      unfold altersLoop
      cases hlk : defsLookup base q.1 with
      | none => exact ih (fun p hp => h p (List.mem_cons_of_mem q hp))
      | some bdef =>
          rw [hlk] at hq
          dsimp only [] at hq
          dsimp only []
          rw [if_pos hq]
          exact ih (fun p hp => h p (List.mem_cons_of_mem q hp))

/-! ## Concrete schema fixtures

Small schemas exercising the pipeline, used by the claim-specific
theorems below. -/

/-- A table with the given name, columns and primary keys and nothing
else. -/
def mkTbl (name : String) (cols : List ColumnDef) (pks : List IndexKey) : CreateTable :=
  ⟨⟨none, name⟩, cols, pks, [], [], none, ""⟩

/-- A `NOT NULL` `INT64` column. -/
def colI (n : String) : ColumnDef := ⟨n, .scalarT .int64T, true, none, none, ""⟩

/-- Base of the C6 scenario: `CREATE INDEX IDX1 ON T1(T1_I1)` with no
declared direction. -/
def c6base : List DDL :=
  [.createTable (mkTbl ("T1") [colI ("T1_I1")] [⟨"T1_I1", none⟩]),
   .createIndex ⟨⟨none, "IDX1"⟩, ⟨none, "T1"⟩, [⟨"T1_I1", none⟩], none, ""⟩]

/-- Target of the C6 scenario: the same index with an explicit `ASC`. -/
def c6target : List DDL :=
  [.createTable (mkTbl ("T1") [colI ("T1_I1")] [⟨"T1_I1", none⟩]),
   .createIndex ⟨⟨none, "IDX1"⟩, ⟨none, "T1"⟩, [⟨"T1_I1", some .asc⟩], none, ""⟩]

/-- The base definition set of the C6 scenario. -/
def c6defsB : Definitions :=
  match newDefinitions c6base false with
  | .ok d => d
  | .error _ => ⟨[]⟩

/-- The target definition set of the C6 scenario. -/
def c6defsT : Definitions :=
  match newDefinitions c6target false with
  | .ok d => d
  | .error _ => ⟨[]⟩

theorem c6defs_ok : newDefinitions c6base false = .ok c6defsB ∧
    newDefinitions c6target false = .ok c6defsT := by decide

/-! ## Claim C6: absent index direction equals `ASC` -/

/-- C6 — Index-key comparison treats an absent sort direction as equal
to an explicit `ASC`: for a base schema containing
`CREATE INDEX IDX1 ON T1(T1_I1)` and a target schema containing
`CREATE INDEX IDX1 ON T1(T1_I1 ASC)` (otherwise identical), diff emits
no statements — for every fuel, every alters iteration order `pi` that
yields entries of the target set, and every synonym order. -/
theorem claim_C6_index_key_asc_default (fuel : Nat)
    (pi_ : List (Identifier × Definition) → List (Identifier × Definition))
    (ordSyn : List String → List String)
    (hpi : ∀ p ∈ pi_ c6defsT.all, p ∈ c6defsT.all) :
    spannerDiff c6base c6target false fuel pi_ ordSyn = .ok [] := by
  have hdrops : ∀ p ∈ c6defsB.all, (defsLookup c6defsT p.1).isSome := by decide
  have haltersAll : ∀ p ∈ c6defsT.all,
      (match defsLookup c6defsB p.1 with
       | some bdef => equalNode bdef.astNode p.2.astNode
       | none => true) = true := by decide
  have hadds : ∀ p ∈ c6defsT.all, (defsLookup c6defsB p.1).isSome := by decide
  have key : diffDefinitions fuel c6defsB c6defsT pi_ ordSyn = .ok [] := by
    unfold diffDefinitions planStates
    unfold dropsPhase altersPhase addsPhase flattenOps
    simp only [dropsLoop_found c6defsB.all hdrops,
      altersLoop_skip (pi_ c6defsT.all) (fun p hp => haltersAll p (hpi p hp)),
      addsLoop_found c6defsT.all hadds,
      flattenLoop_undefined _ (newMigration_undefined c6defsB c6defsT)]
    rfl
  show (match diffDefinitions fuel c6defsB c6defsT pi_ ordSyn with
        | .error f => (Except.error (DiffError.run f) : Except DiffError (List DDL))
        | .ok ddls => .ok ddls) = .ok []
  rw [key]

/-- Witness: the C6 run at fuel 20 with the identity iteration orders. -/
theorem claim_C6_witness : spannerDiff c6base c6target false 20 id id = .ok [] :=
  claim_C6_index_key_asc_default 20 id id (fun p hp => hp)


/-! ## Claim C7: column type changes -/

/-- C7 (amended) — For a column present on both sides whose declared
types differ: when the `(base, target)` column-type pair is in the
permitted transition set, the planner emits exactly one
`ALTER TABLE ... ALTER COLUMN` carrying the target type — with the
target default expression when the default is a plain expression, and
with no default when the column has none — but a target default that is
a generated or identity column forces `Drop+Add` even for a permitted
pair; any pair outside the set is planned as `Drop+Add`. -/
theorem claim_C7_column_type_change (tTbl : CreateTable) (b t : ColumnDef)
    (hne : equalType b.type t.type = false) :
    (permittedTypeChange (columnTypeOf b.type) (columnTypeOf t.type) = true ∧
      ((t.defaultSemantics = none ∧
         columnAlterDecision tTbl b t =
           (.alter, [.alterTable tTbl.name (.alterColumn t.name
             (.alterColumnType t.type t.notNull none))])) ∨
       (∃ e, t.defaultSemantics = some (.defaultExpr e) ∧
         columnAlterDecision tTbl b t =
           (.alter, [.alterTable tTbl.name (.alterColumn t.name
             (.alterColumnType t.type t.notNull (some e)))])) ∨
       (((∃ g, t.defaultSemantics = some (.generatedColumn g)) ∨
         (∃ g, t.defaultSemantics = some (.identityColumn g))) ∧
         columnAlterDecision tTbl b t = (.dropAndAdd, [])))) ∨
    (permittedTypeChange (columnTypeOf b.type) (columnTypeOf t.type) = false ∧
      columnAlterDecision tTbl b t = (.dropAndAdd, [])) := by
  have hcond : ¬ (equalType b.type t.type = true) := by simp [hne]
  have hd : columnAlterDecision tTbl b t =
      (if permittedTypeChange (columnTypeOf b.type) (columnTypeOf t.type) then
        match t.defaultSemantics with
        | none =>
            ((.alter, [.alterTable tTbl.name (.alterColumn t.name
              (.alterColumnType t.type t.notNull none))]) : MigrationKind × List DDL)
        | some (.defaultExpr e) =>
            (.alter, [.alterTable tTbl.name (.alterColumn t.name
              (.alterColumnType t.type t.notNull (some e)))])
        | some _ => (.dropAndAdd, [])
       else (.dropAndAdd, [])) := by
    unfold columnAlterDecision
    rw [if_neg hcond]
  by_cases hperm : permittedTypeChange (columnTypeOf b.type) (columnTypeOf t.type) = true
  · rw [if_pos hperm] at hd
    left
    refine ⟨hperm, ?_⟩
    cases hds : t.defaultSemantics with
    | none =>
        rw [hds] at hd
        exact Or.inl ⟨rfl, hd⟩
    | some ds =>
        rw [hds] at hd
        cases ds with
        | defaultExpr e => exact Or.inr (Or.inl ⟨e, rfl, hd⟩)
        | generatedColumn g => exact Or.inr (Or.inr ⟨Or.inl ⟨g, rfl⟩, hd⟩)
        | identityColumn g => exact Or.inr (Or.inr ⟨Or.inr ⟨g, rfl⟩, hd⟩)
  · rw [if_neg hperm] at hd
    right
    exact ⟨by simpa using hperm, hd⟩

/-- Table fixture for the column-alteration theorems. -/
def c7tbl : CreateTable :=
  mkTbl ("T1") [⟨"C1", .scalarT .stringT, false, none, none, ""⟩] [⟨"C1", none⟩]

/-- Base column: a plain `STRING` column. -/
def c7b : ColumnDef := ⟨"C1", .scalarT .stringT, false, none, none, ""⟩

/-- Target column: `BYTES` with a generated-column default. -/
def c7t : ColumnDef := ⟨"C1", .scalarT .bytesT, false, some (.generatedColumn ("x + 1")), none, ""⟩

/-- Target column: `BYTES` with no default. -/
def c7tPlain : ColumnDef := ⟨"C1", .scalarT .bytesT, false, none, none, ""⟩

/-- Counterexample to C7 as stated: `STRING → BYTES` is in the permitted
transition set, yet a generated-column default on the target makes the
planner recreate the column instead of emitting one `ALTER COLUMN`. -/
theorem claim_C7_counterexample :
    equalType c7b.type c7t.type = false ∧
    permittedTypeChange (columnTypeOf c7b.type) (columnTypeOf c7t.type) = true ∧
    columnAlterDecision c7tbl c7b c7t = (.dropAndAdd, []) ∧
    MigrationKind.dropAndAdd ≠ MigrationKind.alter := by decide

/-- Witness: the amended C7 theorem applied to the permitted
`STRING → BYTES` change with no target default. -/
theorem claim_C7_witness :
    (permittedTypeChange (columnTypeOf c7b.type) (columnTypeOf c7tPlain.type) = true ∧
      ((c7tPlain.defaultSemantics = none ∧
         columnAlterDecision c7tbl c7b c7tPlain =
           (.alter, [.alterTable c7tbl.name (.alterColumn c7tPlain.name
             (.alterColumnType c7tPlain.type c7tPlain.notNull none))])) ∨
       (∃ e, c7tPlain.defaultSemantics = some (.defaultExpr e) ∧
         columnAlterDecision c7tbl c7b c7tPlain =
           (.alter, [.alterTable c7tbl.name (.alterColumn c7tPlain.name
             (.alterColumnType c7tPlain.type c7tPlain.notNull (some e)))])) ∨
       (((∃ g, c7tPlain.defaultSemantics = some (.generatedColumn g)) ∨
         (∃ g, c7tPlain.defaultSemantics = some (.identityColumn g))) ∧
         columnAlterDecision c7tbl c7b c7tPlain = (.dropAndAdd, [])))) ∨
    (permittedTypeChange (columnTypeOf c7b.type) (columnTypeOf c7tPlain.type) = false ∧
      columnAlterDecision c7tbl c7b c7tPlain = (.dropAndAdd, [])) :=
  claim_C7_column_type_change c7tbl c7b c7tPlain (by decide)

/-! ## Claim C9: sequence alteration -/

/-- C9 (amended) — For a sequence present on both sides with non-equal
ASTs (identifier looked up in the base, target entry at the head of the
alters pass): if the options are equal (so the difference lies
elsewhere) the whole alters pass aborts at once with the modelled Go
panic `unsupported sequence alternation` — a panic, not a returned
error — producing no partial output; if the options differ, the
per-kind rule emits exactly `ALTER SEQUENCE ... SET OPTIONS` with the
target options (whatever other differences exist). -/
theorem claim_C9_sequence_alter (fuel : Nat) (base : Definitions)
    (ordSyn : List String → List String) (m : Migration)
    (rest : List (Identifier × Definition))
    (sid : Identifier) (b t : CreateSequence)
    (hlk : defsLookup base sid = some (.sequence b))
    (hne : equalNode (Definition.sequence b).astNode (Definition.sequence t).astNode = false) :
    (equalOptions b.options t.options = true →
      altersLoop fuel base ordSyn m ((sid, .sequence t) :: rest) =
        .error (.panicked ("unsupported sequence alternation"))) ∧
    (equalOptions b.options t.options = false →
      sequenceAlterDecision b t = .ok (.alter, [.alterSequence t.name t.options])) := by
  constructor
  · intro hopts
    unfold altersLoop
    rw [hlk]
    dsimp only []
    rw [if_neg (by simp [hne])]
    show (match alterDispatch fuel m (.sequence b) (.sequence t) ordSyn with
          | .error e => (Except.error e : Except Failure Migration)
          | .ok m2 => altersLoop fuel base ordSyn m2 rest) =
        .error (.panicked ("unsupported sequence alternation"))
    have hseq : sequenceAlterDecision b t =
        .error (.panicked ("unsupported sequence alternation")) := by
      unfold sequenceAlterDecision
      rw [if_neg (by simp [hopts])]
    unfold alterDispatch
    dsimp only []
    rw [hseq]
  · intro hopts
    unfold sequenceAlterDecision
    rw [if_pos (by simp [hopts])]

/-- C9 fixture: base sequence with `OPTIONS (a = 1)`. -/
def c9seqB : CreateSequence := ⟨⟨none, "S1"⟩, some [⟨"a", "1"⟩], ""⟩

/-- C9 fixture: same options, different remainder text. -/
def c9seqT : CreateSequence := ⟨⟨none, "S1"⟩, some [⟨"a", "1"⟩], "x"⟩

/-- C9 base schema. -/
def c9base : List DDL := [.createSequence c9seqB]

/-- C9 target schema: a non-options sequence difference. -/
def c9target : List DDL := [.createSequence c9seqT]

/-- Counterexample to C9 as stated: a non-options sequence difference
surfaces as the modelled panic, not as the returned-error failure the
spec describes; the two failure shapes are distinct. -/
theorem claim_C9_counterexample :
    spannerDiff c9base c9target false 20 id id =
      .error (.run (.panicked ("unsupported sequence alternation"))) ∧
    ∀ s, Failure.panicked ("unsupported sequence alternation") ≠ Failure.errored s :=
  ⟨by decide, fun _ h => Failure.noConfusion h⟩

/-- The C9 base definition set. -/
def c9defsB : Definitions :=
  match newDefinitions c9base false with
  | .ok d => d
  | .error _ => ⟨[]⟩

/-- The C9 target definition set. -/
def c9defsT : Definitions :=
  match newDefinitions c9target false with
  | .ok d => d
  | .error _ => ⟨[]⟩

/-- Witness: the amended C9 theorem applied to the concrete fixture
pair, aborting the alters pass with the modelled panic. -/
theorem claim_C9_witness :
    altersLoop 20 c9defsB id (newMigration c9defsB c9defsT)
        [(Identifier.sequenceID none ("S1"), .sequence c9seqT)] =
      .error (.panicked ("unsupported sequence alternation")) :=
  (claim_C9_sequence_alter 20 c9defsB id (newMigration c9defsB c9defsT) []
    (Identifier.sequenceID none ("S1")) c9seqB c9seqT
    (by decide) (by decide)).1 (by decide)

/-! ## Claim C5: cascade moves on the state lattice -/

/-- Rank of a migration state in the ordering
`Undefined < NoOp < Alter < Add/Drop < Drop+Add`. -/
def latticeRank : MigrationKind → Nat
  | .undefined => 0
  | .noneK => 1
  | .alter => 2
  | .add => 3
  | .drop => 3
  | .dropAndAdd => 4

/-- C5 (amended) — Every state update performed by an
`onDependencyChange` notification claims one of exactly three targets:
the maximal `Drop+Add` state (always a rightward move), the change
stream's special `Alter` with the attached `FOR` toggling pair, or —
only for a column receiver — `NoOp`, which sits below `Alter` in the
lattice and can therefore move a column's state leftward (so the
monotonicity claimed by the spec fails in the column case). -/
theorem claim_C5_cascade_moves (r : Definition) (dep : MigrationState)
    (k : MigrationKind) (ops : List Operation)
    (h : depChangeAction r dep = .ok (some (k, ops))) :
    (k = .dropAndAdd ∧ ops = []) ∨
    (k = .noneK ∧ ops = [] ∧ ∃ tb c, r = .column tb c) ∨
    (k = .alter ∧ ∃ cs, r = .changeStream cs ∧ ops ≠ []) := by
  cases r <;> unfold depChangeAction at h <;> (try dsimp only [] at h) <;>
    (repeat' split at h) <;> cases h <;>
    first
      | exact Or.inl ⟨rfl, rfl⟩
      | exact Or.inr (Or.inl ⟨rfl, rfl, _, _, rfl⟩)
      | exact Or.inr (Or.inr ⟨rfl, _, rfl, by simp⟩)

/-- C5 fixture: base `STRING(10)` column `B`. -/
def c5colB10 : ColumnDef := ⟨"B", .sizedT .stringT ("10"), false, none, none, ""⟩

/-- C5 fixture: target `STRING(20)` column `B`. -/
def c5colB20 : ColumnDef := ⟨"B", .sizedT .stringT ("20"), false, none, none, ""⟩

/-- C5 base table: primary key `A` ascending. -/
def c5tblB : CreateTable := mkTbl ("T1") [colI ("A"), c5colB10] [⟨"A", none⟩]

/-- C5 target table: primary key `A` descending (a recreate) and a
widened column `B`. -/
def c5tblT : CreateTable := mkTbl ("T1") [colI ("A"), c5colB20] [⟨"A", some .desc⟩]

/-- C5 base schema. -/
def c5base : List DDL := [.createTable c5tblB]

/-- C5 target schema. -/
def c5target : List DDL := [.createTable c5tblT]

/-- The C5 base definition set. -/
def c5defsB : Definitions :=
  match newDefinitions c5base false with
  | .ok d => d
  | .error _ => ⟨[]⟩

/-- The C5 target definition set. -/
def c5defsT : Definitions :=
  match newDefinitions c5target false with
  | .ok d => d
  | .error _ => ⟨[]⟩

/-- The migration after the drops pass of the C5 scenario. -/
def c5m1 : Migration :=
  match dropsPhase 20 (newMigration c5defsB c5defsT) c5defsB c5defsT with
  | .ok m => m
  | .error _ => newMigration c5defsB c5defsT

/-- One concrete alters iteration order: column `B` first, the table
last. -/
def c5entries : List (Identifier × Definition) := c5defsT.all.reverse

/-- The migration after the first alters entry (column `B`). -/
def c5m2 : Migration :=
  match altersLoop 20 c5defsB id c5m1 (c5entries.take 1) with
  | .ok m => m
  | .error _ => c5m1

/-- The migration after the whole alters pass in that order. -/
def c5m3 : Migration :=
  match altersLoop 20 c5defsB id c5m1 c5entries with
  | .ok m => m
  | .error _ => c5m1

/-- Counterexample to C5 as stated: in a run whose alters pass visits
column `B` before table `T1`, the column's state first becomes `Alter`,
and the table's later primary-key recreate cascades the column back to
`NoOp` — a leftward move in the spec's ordering. -/
theorem claim_C5_counterexample :
    altersPhase 20 c5m1 c5defsB c5defsT (fun _ => c5entries) id = .ok c5m3 ∧
    altersLoop 20 c5defsB id c5m1 (c5entries.take 1) = .ok c5m2 ∧
    (c5m2.stateOf (.columnID none ("T1") ("B"))).kind = .alter ∧
    (c5m3.stateOf (.columnID none ("T1") ("B"))).kind = .noneK ∧
    latticeRank .noneK < latticeRank .alter := by decide

/-- Witness: the amended C5 theorem applied to the column `B` receiver
when table `T1` is in `Drop+Add`, yielding the column `NoOp` case. -/
theorem claim_C5_witness :
    (MigrationKind.noneK = .dropAndAdd ∧ ([] : List Operation) = []) ∨
    (MigrationKind.noneK = .noneK ∧ ([] : List Operation) = [] ∧
      ∃ tb c, (Definition.column c5tblT c5colB20) = .column tb c) ∨
    (MigrationKind.noneK = .alter ∧
      ∃ cs, (Definition.column c5tblT c5colB20) = .changeStream cs ∧
        ([] : List Operation) ≠ []) :=
  claim_C5_cascade_moves (.column c5tblT c5colB20)
    (newMigrationState (.tableID none ("T1")) (some (.table c5tblB))
      (some (.table c5tblT)) .dropAndAdd)
    .noneK [] (by decide)

/-! ## Claim C4: determinism up to permutation -/

/-- C4 fixture: base table without synonyms. -/
def c4base : List DDL := [.createTable (mkTbl ("T1") [colI ("A")] [⟨"A", none⟩])]

/-- C4 fixture: target table gaining the synonyms `S1` and `S2`. -/
def c4target : List DDL :=
  [.createTable { mkTbl ("T1") [colI ("A")] [⟨"A", none⟩] with synonyms := ["S1", "S2"] }]

/-- Counterexample to C4 as stated: the synonym loops range over a Go
map, so two runs (modelled by the two synonym iteration orders `id` and
`List.reverse`) produce different byte sequences — the same two
`ADD SYNONYM` statements in opposite orders. -/
theorem claim_C4_counterexample :
    spannerDiff c4base c4target false 20 id id =
      .ok [.alterTable ⟨none, "T1"⟩ (.addSynonym ("S1")),
           .alterTable ⟨none, "T1"⟩ (.addSynonym ("S2"))] ∧
    spannerDiff c4base c4target false 20 id List.reverse =
      .ok [.alterTable ⟨none, "T1"⟩ (.addSynonym ("S2")),
           .alterTable ⟨none, "T1"⟩ (.addSynonym ("S1"))] ∧
    spannerDiff c4base c4target false 20 id id ≠
      spannerDiff c4base c4target false 20 id List.reverse := by decide

/-- C4 (amended) — The output is deterministic only up to permutation:
whenever two runs reach the ordering phase with operation multisets
that agree (as any two iteration orders of the same state map do), the
ordering phase returns outputs that are permutations of each other, and
so are the projected DDL scripts; byte-for-byte equality does not hold
in general. -/
theorem claim_C4_output_permutation (ops1 ops2 : List Operation)
    (hperm : ops1.Perm ops2) (res1 res2 : List Operation)
    (h1 : sortOperations ops1 = .ok res1) (h2 : sortOperations ops2 = .ok res2) :
    res1.Perm res2 ∧ (res1.map (·.ddl)).Perm (res2.map (·.ddl)) := by
  have hp : res1.Perm res2 :=
    ((sortOperations_perm ops1 res1 h1).trans hperm).trans
      (sortOperations_perm ops2 res2 h2).symm
  exact ⟨hp, hp.map (·.ddl)⟩

/-- An `Add` operation on table `A`. -/
def c4opA : Operation := ⟨.tableID none ("A"), .add, .createTable (mkTbl ("A") [] []), []⟩

/-- An `Add` operation on table `B`. -/
def c4opB : Operation := ⟨.tableID none ("B"), .add, .createTable (mkTbl ("B") [] []), []⟩

/-- Witness: the amended C4 theorem applied to the two orders of a
concrete two-operation multiset. -/
theorem claim_C4_witness :
    ([c4opA, c4opB] : List Operation).Perm [c4opA, c4opB] ∧
    (([c4opA, c4opB] : List Operation).map (·.ddl)).Perm
      ([c4opA, c4opB].map (·.ddl)) :=
  claim_C4_output_permutation [c4opA, c4opB] [c4opB, c4opA] (by decide)
    [c4opA, c4opB] [c4opA, c4opB] (by decide) (by decide)

/-! ## Claim C1: output ordering -/

/-- C1 — The emitted script is ordered exactly as claimed: the pre-sorted
operations are partitioned into drops and adds/alters, each partition is
topologically sorted on the edges from an operation to the operations it
depends on (children complete first, witnessed by the completion order
`doneDrop`), the drop partition is reversed, and the output is the
reversed drops followed by the adds/alters; consequently every drop
precedes every add/alter in the output, and within the drops a dependent
operation's node completes before (hence, after reversal, is emitted
before) every node it depends on. -/
theorem claim_C1_output_order (ops res : List Operation)
    (h : sortOperations ops = .ok res) :
    ∃ (ds as : List Operation) (doneDrop : List Nat),
      topoSort ((List.insertionSort opLE ops).filter (fun o => o.kind = .drop)) = .ok ds ∧
      topoSort ((List.insertionSort opLE ops).filter (fun o => o.kind ≠ .drop)) = .ok as ∧
      res = ds.reverse ++ as ∧
      (∀ o ∈ ds, o.kind = .drop) ∧
      (∀ o ∈ as, o.kind ≠ .drop) ∧
      (∀ i j : Fin res.length, (res.get i).kind = .drop →
        (res.get j).kind ≠ .drop → (i : Nat) < (j : Nat)) ∧
      doneDrop.Nodup ∧
      (∀ k ∈ doneDrop,
        k < ((List.insertionSort opLE ops).filter (fun o => o.kind = .drop)).length) ∧
      (∀ j, j < ((List.insertionSort opLE ops).filter (fun o => o.kind = .drop)).length →
        j ∈ doneDrop) ∧
      ds = doneDrop.filterMap
        (fun i => ((List.insertionSort opLE ops).filter (fun o => o.kind = .drop)).get? i) ∧
      (∀ a ∈ doneDrop,
        ∀ b ∈ childrenOf ((List.insertionSort opLE ops).filter (fun o => o.kind = .drop)) a,
          doneDrop.indexOf b < doneDrop.indexOf a) := by
  unfold sortOperations at h
  dsimp only at h
  cases h1 : topoSort ((List.insertionSort opLE ops).filter (fun o => o.kind ≠ .drop)) with
  | error e => rw [h1] at h; cases h
  | ok sortedAddAlter =>
      rw [h1] at h
      cases h2 : topoSort ((List.insertionSort opLE ops).filter (fun o => o.kind = .drop)) with
      | error e => rw [h2] at h; cases h
      | ok sortedDrop =>
          rw [h2] at h
          have hres : res = sortedDrop.reverse ++ sortedAddAlter := (Except.ok.inj h).symm
          have pD := topoSort_perm h2
          have pA := topoSort_perm h1
          obtain ⟨doneL, hnd, hlt, hall, hds, hgood⟩ := topoSort_spec h2
          have hkd : ∀ o ∈ sortedDrop, o.kind = .drop := by
            intro o ho
            have hmem := pD.subset ho
            have := List.of_mem_filter hmem
            simpa using this
          have hka : ∀ o ∈ sortedAddAlter, o.kind ≠ .drop := by
            intro o ho
            have hmem := pA.subset ho
            have := List.of_mem_filter hmem
            simpa using this
          refine ⟨sortedDrop, sortedAddAlter, doneL, rfl, rfl, hres, hkd, hka, ?_,
            hnd, hlt, hall, hds, fun a ha b hb => (hgood a ha b hb).2⟩
          subst hres
          intro i j hdi haj
          by_cases hic : (i : Nat) < sortedDrop.reverse.length
          · by_cases hjc : (j : Nat) < sortedDrop.reverse.length
            · exfalso
              rw [List.get_append _ hjc] at haj
              exact haj (hkd (sortedDrop.reverse.get ⟨(j : Nat), hjc⟩)
                (List.mem_reverse.mp (List.get_mem _ _ _)))
            · exact Nat.lt_of_lt_of_le hic (Nat.le_of_not_lt hjc)
          · exfalso
            have hle := Nat.le_of_not_lt hic
            have hlt2 : (i : Nat) - sortedDrop.reverse.length < sortedAddAlter.length := by
              have hi : (i : Nat) < (sortedDrop.reverse ++ sortedAddAlter).length := i.isLt
              have hlen : (sortedDrop.reverse ++ sortedAddAlter).length =
                  sortedDrop.reverse.length + sortedAddAlter.length := List.length_append _ _
              omega
            rw [@List.get_append_right Operation (i : Nat) sortedDrop.reverse
              sortedAddAlter hle i.isLt hlt2] at hdi
            exact hka (sortedAddAlter.get
              ⟨(i : Nat) - sortedDrop.reverse.length, hlt2⟩)
              (List.get_mem _ _ hlt2) hdi

/-- A drop of index `I1`, which depends on table `T1`. -/
def c1opDropIdx : Operation :=
  ⟨.indexID none ("I1"), .drop, .dropIndex ⟨none, "I1"⟩, [.tableID none ("T1")]⟩

/-- A drop of table `T1`. -/
def c1opDropTbl : Operation := ⟨.tableID none ("T1"), .drop, .dropTable ⟨none, "T1"⟩, []⟩

/-- An add of table `T2`. -/
def c1opAddT2 : Operation :=
  ⟨.tableID none ("T2"), .add, .createTable (mkTbl ("T2") [] []), []⟩

/-- The C1 witness input: two drops (an index on `T1`, then `T1`) and
one add. -/
def c1ops : List Operation := [c1opDropIdx, c1opDropTbl, c1opAddT2]

/-- The C1 witness output: the dependent index drop precedes the table
drop, and both precede the add. -/
def c1res : List Operation := [c1opDropIdx, c1opDropTbl, c1opAddT2]

/-- Witness: the C1 theorem applied to the concrete three-operation
input. -/
theorem claim_C1_witness :
    ∃ (ds as : List Operation) (doneDrop : List Nat),
      topoSort ((List.insertionSort opLE c1ops).filter (fun o => o.kind = .drop)) = .ok ds ∧
      topoSort ((List.insertionSort opLE c1ops).filter (fun o => o.kind ≠ .drop)) = .ok as ∧
      c1res = ds.reverse ++ as ∧
      (∀ o ∈ ds, o.kind = .drop) ∧
      (∀ o ∈ as, o.kind ≠ .drop) ∧
      (∀ i j : Fin c1res.length, (c1res.get i).kind = .drop →
        (c1res.get j).kind ≠ .drop → (i : Nat) < (j : Nat)) ∧
      doneDrop.Nodup ∧
      (∀ k ∈ doneDrop,
        k < ((List.insertionSort opLE c1ops).filter (fun o => o.kind = .drop)).length) ∧
      (∀ j, j < ((List.insertionSort opLE c1ops).filter (fun o => o.kind = .drop)).length →
        j ∈ doneDrop) ∧
      ds = doneDrop.filterMap
        (fun i => ((List.insertionSort opLE c1ops).filter (fun o => o.kind = .drop)).get? i) ∧
      (∀ a ∈ doneDrop,
        ∀ b ∈ childrenOf ((List.insertionSort opLE c1ops).filter (fun o => o.kind = .drop)) a,
          doneDrop.indexOf b < doneDrop.indexOf a) :=
  claim_C1_output_order c1ops c1res (by decide)

/-! ## Claim C8: duplicate identifiers -/

/-- Whether a definition is a grant. -/
def isGrantD : Definition → Bool
  | .grant _ _ => true
  | _ => false

/-- Whether an identifier is a grant identifier. -/
def grantShaped : Identifier → Bool
  | .grantID _ _ => true
  | _ => false

/-- The duplicate-identifier condition of `newDefinitions`, stated on
the raw stream of definitions: walking the stream with the set of
already-seen identifiers, a non-grant definition whose identifier was
already seen is a duplicate (two grants with one identifier merge
instead). -/
def collides (prev : List Identifier) : List Definition → Bool
  | [] => false
  | d :: rest =>
      (prev.contains d.id && !(isGrantD d)) || collides (prev ++ [d.id]) rest

/-- Boolean `contains` over an append. -/
theorem contains_append_b {α : Type} [DecidableEq α] (l1 l2 : List α) (x : α) :
    (l1 ++ l2).contains x = (l1.contains x || l2.contains x) := by
  by_cases h1 : x ∈ l1 <;> by_cases h2 : x ∈ l2 <;> simp [List.elem_eq_mem, h1, h2]

/-- Boolean `contains` as membership. -/
theorem contains_iff_b {α : Type} [DecidableEq α] (l : List α) (x : α) :
    l.contains x = true ↔ x ∈ l := by
  simp [List.elem_eq_mem]

/-- `collides` only inspects `prev` through membership. -/
theorem collides_congr {prev1 prev2 : List Identifier}
    (h : ∀ id, prev1.contains id = prev2.contains id) :
    ∀ defs, collides prev1 defs = collides prev2 defs := by
  intro defs
  induction defs generalizing prev1 prev2 with
  | nil => rfl
  | cons d rest ih =>
      unfold collides
      rw [h d.id, @ih (prev1 ++ [d.id]) (prev2 ++ [d.id]) (fun id => by
        rw [contains_append_b prev1 [d.id] id, contains_append_b prev2 [d.id] id, h id])]

/-- Elements produced by the inner grant-explosion fold. -/
theorem mem_foldr_cons {β γ : Type} (g : β → γ) (names : List β) :
    ∀ (acc : List γ) (x : γ), x ∈ names.foldr (fun n acc2 => g n :: acc2) acc →
      (∃ n, x = g n) ∨ x ∈ acc := by
  induction names with
  | nil => intro acc x hx; exact Or.inr hx
  | cons n rest ih =>
      intro acc x hx
      rcases List.mem_cons.mp hx with rfl | hx2
      · exact Or.inl ⟨n, rfl⟩
      · exact ih acc x hx2

/-- Elements produced by the two-level grant-explosion fold. -/
theorem mem_foldr_nested {α β γ : Type} (f : α → β → γ) (roles : List α)
    (names : List β) :
    ∀ x ∈ roles.foldr
        (fun r acc => names.foldr (fun n acc2 => f r n :: acc2) acc) [],
      ∃ r n, x = f r n := by
  induction roles with
  | nil => intro x hx; cases hx
  | cons r rest ih =>
      intro x hx
      rcases mem_foldr_cons (f r) names _ x hx with ⟨n, rfl⟩ | hx2
      · exact ⟨r, n, rfl⟩
      · exact ih x hx2

/-- Every definition a grant DDL explodes into is a grant stored under a
grant identifier. -/
theorem newGrantDefs_wf (g : GrantNode) :
    ∀ d ∈ newGrantDefs g, isGrantD d = grantShaped d.id := by
  intro d hd
  unfold newGrantDefs at hd
  cases hp : g.privilege <;> rw [hp] at hd <;>
    obtain ⟨r, n, rfl⟩ := mem_foldr_nested _ _ _ d hd <;> rfl

/-- Every definition contributed by one statement matches its
identifier shape: grants are stored under grant identifiers and nothing
else is. -/
theorem ddlDefs_wf (ddl : DDL) :
    ∀ d ∈ ddlDefs ddl, isGrantD d = grantShaped d.id := by
  intro d hd
  cases ddl <;> unfold ddlDefs at hd <;>
    first
      | exact newGrantDefs_wf _ d hd
      | exact absurd hd (List.not_mem_nil d)
      | (rcases List.mem_singleton.mp hd with rfl
         rfl)
      | (rcases List.mem_cons.mp hd with rfl | hd2
         · rfl
         · obtain ⟨c, _, rfl⟩ := List.mem_map.mp hd2
           rfl)

/-- The key multiset of the builder state is preserved by a grant
merge. -/
theorem assocReplace_keys (l : List (Identifier × Definition))
    (id : Identifier) (v : Definition) :
    (assocReplace l id v).map (·.1) = l.map (·.1) := by
  unfold assocReplace
  rw [List.map_map]
  apply List.map_congr_left
  intro p _
  by_cases hh : p.1 = id
  · simp [hh]
  · simp [hh]

/-- A key is stored after `defsAdd` exactly when it was stored before or
is the added definition's identifier. -/
theorem defsAdd_keys (st : DefsBuild) (d : Definition) (id : Identifier) :
    ((defsAdd st d).all.map (·.1)).contains id =
      ((st.all.map (·.1)).contains id || ((d.id : Identifier) = id)) := by
  unfold defsAdd
  dsimp only []
  split
  · rename_i old hfind
    have hmem : d.id ∈ st.all.map (·.1) := by
      cases hf : st.all.find? (fun p => p.1 = d.id) with
      | none => rw [hf] at hfind; cases hfind
      | some p =>
          have hp := List.find?_some hf
          have hpm := List.mem_of_find?_eq_some hf
          exact List.mem_map.mpr ⟨p, hpm, by simpa using hp⟩
    have hc : (st.all.map (·.1)).contains d.id = true :=
      (contains_iff_b _ _).mpr hmem
    split
    · rw [assocReplace_keys]
      rename_i gOld gid1 gNew gid2
      by_cases hid : (Definition.grant gNew gid2).id = id <;>
        first
          | (subst hid
             simp [hc]
             try (obtain ⟨p, hpm, hpe⟩ := List.mem_map.mp hmem
                  exact ⟨p.2, by rw [← hpe]; exact hpm⟩))
          | simp [hid]
    · split <;> by_cases hid : d.id = id <;>
        first
          | (subst hid
             simp [hc]
             try (obtain ⟨p, hpm, hpe⟩ := List.mem_map.mp hmem
                  exact ⟨p.2, by rw [← hpe]; exact hpm⟩))
          | simp [hid]
  · by_cases hid : d.id = id <;>
      first
        | (subst hid; simp [List.map_append, contains_append_b])
        | (simp [hid, List.map_append, contains_append_b]
           intro h
           exact absurd h.symm hid)

/-- `defsAdd` preserves the grant/identifier shape invariant of the
stored entries. -/
theorem defsAdd_wf {st : DefsBuild} {d : Definition}
    (hst : ∀ p ∈ st.all, isGrantD p.2 = grantShaped p.1)
    (hd : isGrantD d = grantShaped d.id) :
    ∀ p ∈ (defsAdd st d).all, isGrantD p.2 = grantShaped p.1 := by
  unfold defsAdd
  dsimp only []
  split
  · rename_i old hfind
    split
    · rename_i gOld gid1 gNew gid2
      intro p hp
      unfold assocReplace at hp
      obtain ⟨q, hq, he⟩ := List.mem_map.mp hp
      by_cases hqe : q.1 = (Definition.grant gNew gid2).id
      · rw [if_pos hqe] at he
        subst he
        show isGrantD (Definition.grant (grantMerge gOld gNew) (Definition.grant gNew gid2).id) =
          grantShaped q.1
        rw [hqe]
        exact hd.symm ▸ rfl
      · rw [if_neg hqe] at he
        exact he ▸ hst q hq
    · split
      · exact hst
      · intro p hp
        exact hst p hp
  · intro p hp
    rcases List.mem_append.mp hp with h1 | h1
    · exact hst p h1
    · rcases List.mem_singleton.mp h1 with rfl
      exact hd

/-- `defsAdd` only appends to the duplicate list. -/
theorem defsAdd_dup_mono (st : DefsBuild) (d : Definition) :
    ∃ t, (defsAdd st d).duplicated = st.duplicated ++ t := by
  unfold defsAdd
  dsimp only []
  split
  · split
    · exact ⟨[], (List.append_nil _).symm⟩
    · split
      · exact ⟨[], (List.append_nil _).symm⟩
      · exact ⟨[d.id], rfl⟩
  · exact ⟨[], (List.append_nil _).symm⟩

/-- The whole build only appends to the duplicate list. -/
theorem foldl_defsAdd_dup_mono :
    ∀ (defs : List Definition) (st : DefsBuild),
      ∃ t, (defs.foldl defsAdd st).duplicated = st.duplicated ++ t := by
  intro defs
  induction defs with
  | nil => exact fun st => ⟨[], (List.append_nil _).symm⟩
  | cons d rest ih =>
      intro st
      obtain ⟨t1, h1⟩ := defsAdd_dup_mono st d
      obtain ⟨t2, h2⟩ := ih (defsAdd st d)
      exact ⟨t1 ++ t2, by rw [List.foldl_cons, h2, h1, List.append_assoc]⟩

/-- One `defsAdd` step keeps the duplicate list empty exactly when it
was empty and the added definition does not collide: on a stream
satisfying the shape invariant, a collision of two grants merges while
any other collision marks a duplicate. -/
theorem defsAdd_dup_spec {st : DefsBuild} {d : Definition}
    (hst : ∀ p ∈ st.all, isGrantD p.2 = grantShaped p.1)
    (hd : isGrantD d = grantShaped d.id) :
    ((defsAdd st d).duplicated = [] ↔
      (st.duplicated = [] ∧
        ((st.all.map (·.1)).contains d.id && !(isGrantD d)) = false)) := by
  unfold defsAdd
  dsimp only []
  split
  · rename_i old hfind
    obtain ⟨p, hpmem, hpkey, hpval⟩ :
        ∃ p, p ∈ st.all ∧ p.1 = d.id ∧ p.2 = old := by
      cases hf : st.all.find? (fun p => p.1 = d.id) with
      | none => rw [hf] at hfind; cases hfind
      | some p =>
          rw [hf] at hfind
          refine ⟨p, List.mem_of_find?_eq_some hf, by simpa using List.find?_some hf,
            by simpa using hfind⟩
    have hmem : d.id ∈ st.all.map (·.1) :=
      List.mem_map.mpr ⟨p, hpmem, hpkey⟩
    have hcont : (st.all.map (·.1)).contains d.id = true :=
      (contains_iff_b _ _).mpr hmem
    have hw : isGrantD old = grantShaped d.id := by
      rw [← hpval, ← hpkey]
      exact hst p hpmem
    split
    · rename_i gOld gid1 gNew gid2
      simp [isGrantD]
    · rename_i hng
      have hgd : isGrantD d = false := by
        cases hgdv : isGrantD d
        · rfl
        · exfalso
          have hsh : grantShaped d.id = true := by rw [← hd, hgdv]
          have hgo : isGrantD old = true := by rw [hw, hsh]
          cases d <;> simp [isGrantD] at hgdv
          cases old <;> simp [isGrantD] at hgo
          exact hng _ _ _ _ rfl rfl
      rw [hcont, hgd]
      split
      · rename_i hdup
        have : st.duplicated ≠ [] := by
          intro he
          rw [he] at hdup
          cases hdup
        simp [this]
      · simp
  · rename_i hfind
    have hnc : (st.all.map (·.1)).contains d.id = false := by
      cases hcv : (st.all.map (·.1)).contains d.id
      · rfl
      · exfalso
        obtain ⟨p, hpm, hpe⟩ := List.mem_map.mp ((contains_iff_b _ _).mp hcv)
        cases hf : st.all.find? (fun p => p.1 = d.id) with
        | some q => rw [hf] at hfind; cases hfind
        | none =>
            have := List.find?_eq_none.mp hf p hpm
            simp [hpe] at this
    rw [hnc]
    simp

/-- The duplicate list of the whole build is empty exactly when no
definition of the stream collides. -/
theorem foldl_defsAdd_collides :
    ∀ (defs : List Definition) (st : DefsBuild),
      (∀ d ∈ defs, isGrantD d = grantShaped d.id) →
      (∀ p ∈ st.all, isGrantD p.2 = grantShaped p.1) →
      ((defs.foldl defsAdd st).duplicated = [] ↔
        st.duplicated = [] ∧ collides (st.all.map (·.1)) defs = false) := by
  intro defs
  induction defs with
  | nil =>
      intro st _ _
      show st.duplicated = [] ↔ st.duplicated = [] ∧ false = false
      simp
  | cons d rest ih =>
      intro st hdefs hst
      have hd := hdefs d (List.mem_cons_self d rest)
      have hst2 := defsAdd_wf hst hd
      rw [List.foldl_cons,
        ih (defsAdd st d) (fun x hx => hdefs x (List.mem_cons_of_mem d hx)) hst2]
      have hkeys : collides ((defsAdd st d).all.map (·.1)) rest =
          collides ((st.all.map (·.1)) ++ [d.id]) rest :=
        collides_congr (fun id => by
          rw [defsAdd_keys, contains_append_b]
          by_cases hcase : d.id = id
          · subst hcase
            simp [List.elem_eq_mem]
          · have hx : ([d.id] : List Identifier).contains id = false := by
              simp [List.elem_eq_mem]
              exact fun h => hcase h.symm
            rw [hx]
            simp [hcase]) rest
      have hcol : collides (st.all.map (·.1)) (d :: rest) =
          ((st.all.map (·.1)).contains d.id && !(isGrantD d) ||
            collides ((st.all.map (·.1)) ++ [d.id]) rest) := rfl
      rw [hkeys, hcol, defsAdd_dup_spec hst hd]
      constructor
      · rintro ⟨⟨h1, h2⟩, h3⟩
        refine ⟨h1, ?_⟩
        rw [h2, h3]
        rfl
      · rintro ⟨h1, h23⟩
        rw [Bool.or_eq_false_iff] at h23
        exact ⟨⟨h1, h23.1⟩, h23.2⟩

/-- When no statement is refused, the build loop is the fold of
`defsAdd` over the flattened definition stream. -/
theorem defsLoop_flat (b : Bool) :
    ∀ (ddls : List DDL) (st : DefsBuild),
      (∀ x ∈ ddls, x.isUnsupportedInput = false) →
      defsLoop b st ddls = .ok ((ddls.flatMap ddlDefs).foldl defsAdd st) := by
  intro ddls
  induction ddls with
  | nil => intro st _; rfl
  | cons x rest ih =>
      intro st hsup
      unfold defsLoop
      rw [if_neg (fun hand => by
        rw [hsup x (List.mem_cons_self x rest)] at hand
        exact Bool.false_ne_true hand.1)]
      rw [ih ((ddlDefs x).foldl defsAdd st)
        (fun y hy => hsup y (List.mem_cons_of_mem x hy))]
      rw [show (x :: rest).flatMap ddlDefs = ddlDefs x ++ rest.flatMap ddlDefs from rfl,
        List.foldl_append]

/-- Every definition of the flattened stream satisfies the shape
invariant. -/
theorem flatMap_ddlDefs_wf (ddls : List DDL) :
    ∀ d ∈ ddls.flatMap ddlDefs, isGrantD d = grantShaped d.id := by
  intro d hd
  obtain ⟨x, _, hdx⟩ := List.mem_flatMap.mp hd
  exact ddlDefs_wf x d hdx

/-- A later non-grant definition whose identifier was already seen
collides. -/
theorem collides_of_mem_prev :
    ∀ (l2 : List Definition) (l3 : List Definition) (prev : List Identifier)
      (d2 : Definition), d2.id ∈ prev → isGrantD d2 = false →
      collides prev (l2 ++ d2 :: l3) = true := by
  intro l2
  induction l2 with
  | nil =>
      intro l3 prev d2 hmem hg
      show (prev.contains d2.id && !(isGrantD d2) ||
        collides (prev ++ [d2.id]) l3) = true
      rw [hg, (contains_iff_b _ _).mpr hmem]
      rfl
  | cons e rest ih =>
      intro l3 prev d2 hmem hg
      show (prev.contains e.id && !(isGrantD e) ||
        collides (prev ++ [e.id]) (rest ++ d2 :: l3)) = true
      rw [ih l3 (prev ++ [e.id]) d2 (List.mem_append.mpr (Or.inl hmem)) hg]
      simp

/-- Two non-merging stream entries with one identifier collide. -/
theorem collides_pair (l1 l2 l3 : List Definition) (d1 d2 : Definition)
    (hid : d1.id = d2.id) (hg : isGrantD d2 = false) :
    ∀ prev, collides prev (l1 ++ d1 :: (l2 ++ d2 :: l3)) = true := by
  induction l1 with
  | nil =>
      intro prev
      show (prev.contains d1.id && !(isGrantD d1) ||
        collides (prev ++ [d1.id]) (l2 ++ d2 :: l3)) = true
      rw [collides_of_mem_prev l2 l3 (prev ++ [d1.id]) d2
        (List.mem_append.mpr (Or.inr (by rw [← hid]; exact List.mem_singleton_self d1.id))) hg]
      simp
  | cons e rest ih =>
      intro prev
      show (prev.contains e.id && !(isGrantD e) ||
        collides (prev ++ [e.id]) (rest ++ d1 :: (l2 ++ d2 :: l3))) = true
      rw [ih (prev ++ [e.id])]
      simp

/-- C8 — Building one side's definition set fails with a
duplicate-identifier error exactly when the flattened definition stream
contains a collision (after grant merging: a non-grant definition whose
identifier was already introduced); in particular two
`CREATE PROTO BUNDLE` statements anywhere on one side always collide
(the proto-bundle identifier is a singleton), and a definition-set error
makes `Diff` produce no output. -/
theorem claim_C8_duplicate_identifiers (ddls : List DDL) (b : Bool)
    (hsup : ∀ x ∈ ddls, x.isUnsupportedInput = false) :
    ((∃ ids, newDefinitions ddls b = .error (.duplicated ids)) ↔
      collides [] (ddls.flatMap ddlDefs) = true) ∧
    (∀ pre mid post p1 p2,
      ddls = pre ++ .createProtoBundle p1 :: (mid ++ .createProtoBundle p2 :: post) →
      ∃ ids, newDefinitions ddls b = .error (.duplicated ids)) ∧
    (∀ e (tddls : List DDL) (fuel : Nat)
      (pi_ : List (Identifier × Definition) → List (Identifier × Definition))
      (ordSyn : List String → List String),
      newDefinitions ddls b = .error e →
      spannerDiff ddls tddls b fuel pi_ ordSyn = .error (.defs e)) := by
  have hiff : (∃ ids, newDefinitions ddls b = .error (.duplicated ids)) ↔
      collides [] (ddls.flatMap ddlDefs) = true := by
    unfold newDefinitions
    rw [defsLoop_flat b ddls ⟨[], []⟩ hsup]
    have hfold := foldl_defsAdd_collides (ddls.flatMap ddlDefs) ⟨[], []⟩
      (flatMap_ddlDefs_wf ddls) (fun p hp => absurd hp (List.not_mem_nil p))
    have hfold2 : ((ddls.flatMap ddlDefs).foldl defsAdd ⟨[], []⟩).duplicated = [] ↔
        collides [] (ddls.flatMap ddlDefs) = false :=
      ⟨fun h => (hfold.mp h).2, fun h => hfold.mpr ⟨rfl, h⟩⟩
    dsimp only []
    constructor
    · rintro ⟨ids, hids⟩
      cases hcv : collides [] (ddls.flatMap ddlDefs)
      · exfalso
        have hdup := hfold2.mpr hcv
        rw [if_neg (by simp [hdup])] at hids
        cases hids
      · rfl
    · intro hcv
      have hdup : ¬ (((ddls.flatMap ddlDefs).foldl defsAdd ⟨[], []⟩).duplicated = []) := by
        intro he
        rw [hfold2.mp he] at hcv
        cases hcv
      refine ⟨((ddls.flatMap ddlDefs).foldl defsAdd ⟨[], []⟩).duplicated, ?_⟩
      rw [if_pos (by simpa using hdup)]
  refine ⟨hiff, ?_, ?_⟩
  · intro pre mid post p1 p2 hshape
    refine hiff.mpr ?_
    subst hshape
    have hstream : (pre ++ DDL.createProtoBundle p1 ::
        (mid ++ DDL.createProtoBundle p2 :: post)).flatMap ddlDefs =
        pre.flatMap ddlDefs ++ Definition.protoBundle p1 ::
          (mid.flatMap ddlDefs ++ Definition.protoBundle p2 :: post.flatMap ddlDefs) := by
      simp [List.flatMap_append, List.flatMap_cons, ddlDefs]
    rw [hstream]
    exact collides_pair (pre.flatMap ddlDefs) (mid.flatMap ddlDefs)
      (post.flatMap ddlDefs) (.protoBundle p1) (.protoBundle p2) rfl rfl []
  · intro e tddls fuel pi_ ordSyn he
    unfold spannerDiff
    rw [he]

/-- Witness: the C8 theorem applied to two proto bundles, whose
identifiers always collide. -/
theorem claim_C8_witness :
    ((∃ ids, newDefinitions [DDL.createProtoBundle ⟨["a.proto"]⟩,
        DDL.createProtoBundle ⟨["b.proto"]⟩] false = .error (.duplicated ids)) ↔
      collides [] (([DDL.createProtoBundle ⟨["a.proto"]⟩,
        DDL.createProtoBundle ⟨["b.proto"]⟩] : List DDL).flatMap ddlDefs) = true) :=
  (claim_C8_duplicate_identifiers
    [DDL.createProtoBundle ⟨["a.proto"]⟩, DDL.createProtoBundle ⟨["b.proto"]⟩]
    false (by decide)).1

/-! ## Claim C2: cascade completeness on a table recreate -/

/-- C2 fixture: table `T1` with primary-key direction `dir`. -/
def c2tblT1 (dir : Option Direction) : CreateTable :=
  mkTbl ("T1") [colI ("C1")] [⟨"C1", dir⟩]

/-- C2 fixture: table `T2`, the property graph's node source. -/
def c2tblT2 : CreateTable := mkTbl ("T2") [colI ("D1")] [⟨"D1", none⟩]

/-- C2 fixture: a property graph over `T2` whose edge element references
the columns of `T1` (`REFERENCE COLUMNS`), so its declared dependencies
reach `T1` only through `T1`'s column. -/
def c2pg : CreatePropertyGraph :=
  ⟨false, "G", ⟨[⟨"T2", none, ""⟩],
    some [⟨"T2", some (.edgeKeys none ⟨["D1"], "T1", ["C1"]⟩ ""), ""⟩], ""⟩, ""⟩

/-- C2 base schema. -/
def c2base : List DDL :=
  [.createTable (c2tblT1 none), .createTable c2tblT2, .createPropertyGraph c2pg]

/-- C2 target schema: `T1` is recreated (primary-key direction change). -/
def c2target : List DDL :=
  [.createTable (c2tblT1 (some .desc)), .createTable c2tblT2, .createPropertyGraph c2pg]

/-- Counterexample to C2 as stated: diff recreates `T1`
(`DROP T1; CREATE T1;` is the whole output), the property graph's
declared dependencies transitively include `T1` (they contain `T1`'s
column, whose dependencies contain `T1`), yet the output holds no
statement for the property graph — the `REFERENCE COLUMNS` dependency
registers only the column identifier, which has no state change of its
own, so the transitive cascade never reaches the graph. -/
theorem claim_C2_counterexample :
    spannerDiff c2base c2target false 30 id id =
      .ok [.dropTable ⟨none, "T1"⟩, .createTable (c2tblT1 (some .desc))] ∧
    (Definition.propertyGraph c2pg).dependsOn.contains
      (.columnID none ("T1") ("C1")) = true ∧
    (Definition.column (c2tblT1 (some .desc)) (colI ("C1"))).dependsOn.contains
      (.tableID none ("T1")) = true ∧
    ([DDL.dropTable ⟨none, "T1"⟩,
      DDL.createTable (c2tblT1 (some .desc))].all
        (fun ddl => ddl ≠ .createPropertyGraph { c2pg with orReplace := true } ∧
          ddl ≠ .dropPropertyGraph ("G"))) = true := by decide

/-- C2 scenario fixture: base with an index on `T1` and a change stream
`FOR T1`. -/
def s2base : List DDL :=
  [.createTable (mkTbl ("T1") [colI ("A"), colI ("B")] [⟨"A", none⟩]),
   .createIndex ⟨⟨none, "IDX1"⟩, ⟨none, "T1"⟩, [⟨"A", none⟩], none, ""⟩,
   .createChangeStream ⟨"S2", some (.forTables [⟨"T1", []⟩]), none, ""⟩]

/-- C2 scenario fixture: the target changes `T1`'s primary key. -/
def s2target : List DDL :=
  [.createTable (mkTbl ("T1") [colI ("A"), colI ("B")] [⟨"B", none⟩]),
   .createIndex ⟨⟨none, "IDX1"⟩, ⟨none, "T1"⟩, [⟨"A", none⟩], none, ""⟩,
   .createChangeStream ⟨"S2", some (.forTables [⟨"T1", []⟩]), none, ""⟩]

/-- C2 (amended) — One cascade notification is complete for directly
registered dependents: when a table's (or a table column's) state
reaches `Drop+Add`, every notified index, search index, vector index,
property graph, view, and grant receiver claims `Drop+Add` (its drop
and re-add), and every notified change stream declared `FOR` specific
tables claims the special `Alter` carrying exactly the
`DROP FOR ALL` / `SET FOR` pair; and in the concrete recreate scenario
with a registered index and change stream, the output orders
`ALTER CHANGE STREAM ... DROP FOR ALL` before `DROP TABLE` and
`... SET FOR` after the re-`CREATE TABLE`.  (Transitive completeness
fails; see the counterexample.) -/
theorem claim_C2_cascade_recreate (dep : MigrationState)
    (hkind : dep.kind = .dropAndAdd)
    (hdefn : (∃ t, dep.defn = some (.table t)) ∨
      (∃ tb c, dep.defn = some (.column tb c))) :
    ((∀ idx, depChangeAction (.index idx) dep = .ok (some (.dropAndAdd, []))) ∧
     (∀ si, depChangeAction (.searchIndex si) dep = .ok (some (.dropAndAdd, []))) ∧
     (∀ vi, depChangeAction (.vectorIndex vi) dep = .ok (some (.dropAndAdd, []))) ∧
     (∀ pg, depChangeAction (.propertyGraph pg) dep = .ok (some (.dropAndAdd, []))) ∧
     (∀ v, depChangeAction (.view v) dep = .ok (some (.dropAndAdd, []))) ∧
     (∀ g gid, depChangeAction (.grant g gid) dep = .ok (some (.dropAndAdd, []))) ∧
     (∀ cs ts, cs.forClause = some (.forTables ts) →
       depChangeAction (.changeStream cs) dep =
         .ok (some (.alter,
           [newOperation (.changeStream cs) .drop
             (.alterChangeStream cs.name .dropForAll),
            newOperation (.changeStream cs) .add
             (.alterChangeStream cs.name (.setFor (.forTables ts)))])))) ∧
    spannerDiff s2base s2target false 30 id id =
      .ok [.dropIndex ⟨none, "IDX1"⟩,
           .alterChangeStream ("S2") .dropForAll,
           .dropTable ⟨none, "T1"⟩,
           .createTable (mkTbl ("T1") [colI ("A"), colI ("B")] [⟨"B", none⟩]),
           .alterChangeStream ("S2") (.setFor (.forTables [⟨"T1", []⟩])),
           .createIndex ⟨⟨none, "IDX1"⟩, ⟨none, "T1"⟩, [⟨"A", none⟩], none, ""⟩] := by
  refine ⟨⟨?_, ?_, ?_, ?_, ?_, ?_, ?_⟩, by decide⟩ <;>
    first
      | (intro cs ts hfor
         rcases hdefn with ⟨t, hdf⟩ | ⟨tb, c, hdf⟩ <;>
           (unfold depChangeAction
            dsimp only []
            rw [hdf, hkind, hfor]) <;> rfl)
      | (intro g gid
         rcases hdefn with ⟨t, hdf⟩ | ⟨tb, c, hdf⟩ <;>
           (unfold depChangeAction
            dsimp only []
            rw [hdf, hkind]) <;> rfl)
      | (intro r
         rcases hdefn with ⟨t, hdf⟩ | ⟨tb, c, hdf⟩ <;>
           (unfold depChangeAction
            dsimp only []
            rw [hdf, hkind]) <;> rfl)

/-- Witness: the amended C2 theorem applied to a table dependency in
`Drop+Add`. -/
theorem claim_C2_witness :
    ((∀ idx, depChangeAction (.index idx)
        (newMigrationState (.tableID none ("T1")) (some (.table (c2tblT1 none)))
          (some (.table (c2tblT1 (some .desc)))) .dropAndAdd) =
        .ok (some (.dropAndAdd, []))) ∧
     (∀ si, depChangeAction (.searchIndex si)
        (newMigrationState (.tableID none ("T1")) (some (.table (c2tblT1 none)))
          (some (.table (c2tblT1 (some .desc)))) .dropAndAdd) =
        .ok (some (.dropAndAdd, []))) ∧
     (∀ vi, depChangeAction (.vectorIndex vi)
        (newMigrationState (.tableID none ("T1")) (some (.table (c2tblT1 none)))
          (some (.table (c2tblT1 (some .desc)))) .dropAndAdd) =
        .ok (some (.dropAndAdd, []))) ∧
     (∀ pg, depChangeAction (.propertyGraph pg)
        (newMigrationState (.tableID none ("T1")) (some (.table (c2tblT1 none)))
          (some (.table (c2tblT1 (some .desc)))) .dropAndAdd) =
        .ok (some (.dropAndAdd, []))) ∧
     (∀ v, depChangeAction (.view v)
        (newMigrationState (.tableID none ("T1")) (some (.table (c2tblT1 none)))
          (some (.table (c2tblT1 (some .desc)))) .dropAndAdd) =
        .ok (some (.dropAndAdd, []))) ∧
     (∀ g gid, depChangeAction (.grant g gid)
        (newMigrationState (.tableID none ("T1")) (some (.table (c2tblT1 none)))
          (some (.table (c2tblT1 (some .desc)))) .dropAndAdd) =
        .ok (some (.dropAndAdd, []))) ∧
     (∀ cs ts, cs.forClause = some (.forTables ts) →
       depChangeAction (.changeStream cs)
          (newMigrationState (.tableID none ("T1")) (some (.table (c2tblT1 none)))
            (some (.table (c2tblT1 (some .desc)))) .dropAndAdd) =
         .ok (some (.alter,
           [newOperation (.changeStream cs) .drop
             (.alterChangeStream cs.name .dropForAll),
            newOperation (.changeStream cs) .add
             (.alterChangeStream cs.name (.setFor (.forTables ts)))])))) ∧
    spannerDiff s2base s2target false 30 id id =
      .ok [.dropIndex ⟨none, "IDX1"⟩,
           .alterChangeStream ("S2") .dropForAll,
           .dropTable ⟨none, "T1"⟩,
           .createTable (mkTbl ("T1") [colI ("A"), colI ("B")] [⟨"B", none⟩]),
           .alterChangeStream ("S2") (.setFor (.forTables [⟨"T1", []⟩])),
           .createIndex ⟨⟨none, "IDX1"⟩, ⟨none, "T1"⟩, [⟨"A", none⟩], none, ""⟩] :=
  claim_C2_cascade_recreate
    (newMigrationState (.tableID none ("T1")) (some (.table (c2tblT1 none)))
      (some (.table (c2tblT1 (some .desc)))) .dropAndAdd)
    (by decide) (Or.inl ⟨c2tblT1 (some .desc), by decide⟩)

/-- Witness: idempotence at the concrete C6 base definition set. -/
theorem claim_C3_witness : diffDefinitions 5 c6defsB c6defsB id id = .ok [] :=
  claim_C3_idempotence c6defsB 5 id id (by decide) (fun p hp => hp)

end Spannerdiff
